import Mathlib

/-!
# goapp: the Watcher, the stats tracker, the origin check and the hex generator

A shallow embedding of

* `internal/pkg/httpsrv/watcher.go` (package `watcher`): the per-connection
  coalescing counter, as a labelled transition system over an explicit state;
* `internal/pkg/httpsrv/stats.go`: the per-connection delivery statistics;
* `internal/pkg/httpsrv/server.go`, `handler_websocket.go`: the origin
  allow-list and the main thread of the websocket handler;
* `pkg/util/string.go`: `SecureRandom.GenerateHex`.

Goroutines are modelled by interleaving: every atomic statement of a goroutine
is one labelled step, and a `select` that Go resolves by a pseudo-random choice
among the ready cases takes the chosen case as part of the label.
-/

namespace GoApp

/-! ## Go runtime -/

/-- Result of one atomic step. `stuck` means the step cannot be taken in this
state: the goroutine is not at that statement, the statement would block, or
the named `select` case is not one Go may choose. -/
inductive Outcome (σ : Type) where
  | ok (s : σ)
  | stuck
  | panic (msg : String)
deriving DecidableEq, Repr

/-- Sequencing of steps: the first failure is the result. -/
def Outcome.bind {σ τ : Type} (o : Outcome σ) (f : σ → Outcome τ) : Outcome τ :=
  match o with
  | .ok s => f s
  | .stuck => .stuck
  | .panic m => .panic m

/-- Look at a part of the state a step ended in. -/
def Outcome.map {σ τ : Type} (f : σ → τ) (o : Outcome σ) : Outcome τ :=
  o.bind fun s => .ok (f s)

/-- Go `int` / `int64` arithmetic on a 64-bit platform wraps in two's
complement. -/
def wrapInt64 (x : Int) : Int :=
  (x + 9223372036854775808) % 18446744073709551616 - 9223372036854775808

/-- A buffered Go channel: the queued elements (oldest first), the capacity
given to `make`, and whether `close` was called. A sender handing a value
directly to a waiting receiver is the same as buffering it and the receiver
taking it in its next step, so waiting receivers are not part of the state. -/
structure Chan (α : Type) where
  buf : List α
  cap : Nat
  closed : Bool
deriving DecidableEq, Repr

/-- The Go expression `make(chan α, cap)`. -/
def Chan.make (α : Type) (cap : Nat) : Chan α :=
  { buf := [], cap := cap, closed := false }

/-- A send "can proceed" when there is room in the buffer, and also when the
channel is closed: a send on a closed channel proceeds by panicking. -/
def Chan.sendReady {α : Type} (c : Chan α) : Bool :=
  c.closed || decide (c.buf.length < c.cap)

/-- The Go statement `c <- v`. -/
def Chan.send {α : Type} (c : Chan α) (v : α) : Outcome (Chan α) :=
  if c.closed then .panic "send on closed channel"
  else if c.buf.length < c.cap then .ok { c with buf := c.buf ++ [v] }
  else .stuck

/-- A receive can proceed when a value is queued or the channel is closed. -/
def Chan.recvReady {α : Type} (c : Chan α) : Bool :=
  !c.buf.isEmpty || c.closed

/-- The Go expression `<-c`; a closed and drained channel yields the zero value
of the element type. -/
def Chan.recv {α : Type} (zero : α) (c : Chan α) : Outcome (α × Chan α) :=
  match c.buf with
  | v :: rest => .ok (v, { c with buf := rest })
  | [] => if c.closed then .ok (zero, c) else .stuck

/-- The Go statement `close(c)`. -/
def Chan.close {α : Type} (c : Chan α) : Outcome (Chan α) :=
  if c.closed then .panic "close of closed channel"
  else .ok { c with closed := true }

/-! ## watcher.go: data -/

/-- Modelled from the spec: the declaration of `Counter` is not among the
sources. It is "iteration number + opaque string payload"; `Iteration` is a Go
`int` because `handlerWebSocket` assigns it to `wsMessage.Iteration int`. -/
structure Counter where
  Iteration : Int
  Value : String
deriving DecidableEq, Repr

/-- Values of type `*Counter` that occur: `nil` (the zero value) and the
address of the Watcher's own counter, the only pointer ever sent on `outCh`. -/
inductive CounterPtr where
  | nil
  | counter
deriving DecidableEq, Repr

/-- The struct `Watcher`. `counter` is the object `w.counter` points to,
`counterLock` is true while the mutex is write-locked, `ctxDone` is true once
`cancel` was called, `running` is the WaitGroup count. -/
structure Watcher where
  id : String
  inCh : Chan String
  outCh : Chan CounterPtr
  counter : Counter
  counterLock : Bool
  ctxDone : Bool
  running : Nat
deriving DecidableEq, Repr

/-- The constructor `New()`; `id` is the string `uuid.NewString()` returned. -/
def New (id : String) : Watcher :=
  { id := id
    inCh := Chan.make String 1
    outCh := Chan.make CounterPtr 1
    counter := { Iteration := 0, Value := "" }
    counterLock := false
    ctxDone := false
    running := 0 }

/-- Cases of the `select` in `Send`. -/
inductive SendCase where
  | inCh
  | done
  | dflt
deriving DecidableEq, Repr

/-- The method `Send` (lines 83-89): one `select` over `w.inCh <- str`,
`<-w.ctx.Done()` and `default`. `pick` is the case taken; `default` can be
taken only when no communication can proceed. -/
def Watcher.Send (str : String) (pick : SendCase) (w : Watcher) : Outcome Watcher :=
  match pick with
  | .inCh => (w.inCh.send str).bind fun c => .ok { w with inCh := c }
  | .done => if w.ctxDone then .ok w else .stuck
  | .dflt => if w.inCh.sendReady || w.ctxDone then .stuck else .ok w

/-- The method `GetWatcherId`. -/
def Watcher.GetWatcherId (w : Watcher) : String := w.id

/-! ## watcher.go: goroutines -/

/-- Program counter of the `mainLoop` goroutine. -/
inductive LoopPc where
  /-- before `Start` is called -/
  | idle
  /-- at the outer `select` (line 52) -/
  | select
  /-- after `str` was received from `inCh` (line 55), before line 56 -/
  | got (str : String)
  /-- at the inner `select` (line 63) -/
  | publish
  /-- returning: `ticker.Stop()` ran, `close(w.inCh)` is next -/
  | closeIn
  /-- `close(w.outCh)` is next -/
  | closeOut
  /-- `w.running.Done()` is next -/
  | wgDone
  /-- the goroutine has ended -/
  | exited
deriving DecidableEq, Repr

/-- Program counter of the goroutine calling `ResetCounter` (the read pump of
`handlerWebSocket`). -/
inductive ResetPc where
  | idle
  /-- holds `counterLock`, has set `Iteration = 0`, is at the `select` -/
  | atSelect
deriving DecidableEq, Repr

/-- What the consumer and the resetter did, in the order it happened:
`observed n` is a read of `counter.Iteration` through a pointer obtained from
`Recv()`, `reset` is the assignment `w.counter.Iteration = 0`. -/
inductive LogEntry where
  | observed (n : Int)
  | reset
deriving DecidableEq, Repr

/-- A Watcher together with the goroutines that work on it: the `mainLoop`
goroutine and its ticker (`tickerOn`: created and not stopped; `tickerC`: a tick
waits in the channel `ticker.C`, which has capacity 1), the goroutine calling
`ResetCounter`, and the consumer (`held`: the pointer it received from
`Recv()` and has not dereferenced yet). `log` is a history variable. -/
structure State where
  w : Watcher
  loop : LoopPc
  tickerOn : Bool
  tickerC : Bool
  resetter : ResetPc
  held : Option CounterPtr
  log : List LogEntry
deriving DecidableEq, Repr

/-- A Watcher right after `New()`, no goroutine running. -/
def State.init (id : String) : State :=
  { w := New id
    loop := .idle
    tickerOn := false
    tickerC := false
    resetter := .idle
    held := none
    log := [] }

/-- The method `Start` (lines 37-41) with the prologue of `mainLoop`
(lines 44-49): the WaitGroup is incremented, the goroutine is launched, creates
its ticker and arrives at the outer `select`. -/
def Start (st : State) : Outcome State :=
  match st.loop with
  | .idle =>
    .ok { st with
      w := { st.w with running := st.w.running + 1 }
      loop := .select
      tickerOn := true }
  | _ => .stuck

/-- Cases of the two `select` statements of `mainLoop`. -/
inductive LoopCase where
  | done
  | inCh
  | outCh
  | tick
deriving DecidableEq, Repr

/-- The outer `select` of `mainLoop` (lines 52-55): on `<-w.ctx.Done()` the
function returns (the deferred `ticker.Stop()` runs at once), on
`str := <-w.inCh` the signal is taken. -/
def mainLoop_select (pick : LoopCase) (st : State) : Outcome State :=
  match st.loop with
  | .select =>
    match pick with
    | .done =>
      if st.w.ctxDone then .ok { st with loop := .closeIn, tickerOn := false } else .stuck
    | .inCh =>
      (st.w.inCh.recv "").bind fun r =>
        .ok { st with w := { st.w with inCh := r.2 }, loop := .got r.1 }
    | _ => .stuck
  | _ => .stuck

/-- Lines 56-61 of `mainLoop`: an empty signal is skipped; otherwise the counter
is incremented under the write lock. -/
def mainLoop_signal (st : State) : Outcome State :=
  match st.loop with
  | .got str =>
    if str = "" then .ok { st with loop := .select }
    else if st.w.counterLock then .stuck
    else
      .ok { st with
        w := { st.w with
          counter := { st.w.counter with Iteration := wrapInt64 (st.w.counter.Iteration + 1) } }
        loop := .publish }
  | _ => .stuck

/-- The inner `select` of `mainLoop` (lines 63-69): publish the pointer
`w.counter`, or return on cancellation, or give up on a tick of the 100 ms
ticker and go back to the outer `select`. -/
def mainLoop_publish (pick : LoopCase) (st : State) : Outcome State :=
  match st.loop with
  | .publish =>
    match pick with
    | .outCh =>
      (st.w.outCh.send .counter).bind fun c =>
        .ok { st with w := { st.w with outCh := c }, loop := .select }
    | .done =>
      if st.w.ctxDone then .ok { st with loop := .closeIn, tickerOn := false } else .stuck
    | .tick =>
      if st.tickerC then .ok { st with tickerC := false, loop := .select } else .stuck
    | .inCh => .stuck
  | _ => .stuck

/-- The deferred calls of `mainLoop` (lines 44-46), in the order they run:
`close(w.inCh)`, `close(w.outCh)`, `w.running.Done()`. -/
def mainLoop_defer (st : State) : Outcome State :=
  match st.loop with
  | .closeIn =>
    st.w.inCh.close.bind fun c => .ok { st with w := { st.w with inCh := c }, loop := .closeOut }
  | .closeOut =>
    st.w.outCh.close.bind fun c => .ok { st with w := { st.w with outCh := c }, loop := .wgDone }
  | .wgDone =>
    if st.w.running = 0 then .panic "sync: negative WaitGroup counter"
    else .ok { st with w := { st.w with running := st.w.running - 1 }, loop := .exited }
  | _ => .stuck

/-- The runtime timer of the ticker fires: a tick is put into `ticker.C` unless
one is already waiting there. -/
def tickFire (st : State) : Outcome State :=
  if st.tickerOn then .ok { st with tickerC := true } else .stuck

/-- The call `w.cancel()`, the first statement of `Stop` (line 75). -/
def Stop_cancel (st : State) : Outcome State :=
  .ok { st with w := { st.w with ctxDone := true } }

/-- The call `w.running.Wait()`, the second statement of `Stop` (line 76): it
returns once the WaitGroup count is zero. -/
def Stop_wait (st : State) : Outcome State :=
  if st.w.running = 0 then .ok st else .stuck

/-- Lines 96-99 of `ResetCounter`: take the write lock and set
`w.counter.Iteration = 0`. -/
def ResetCounter_lock (st : State) : Outcome State :=
  match st.resetter with
  | .idle =>
    if st.w.counterLock then .stuck
    else
      .ok { st with
        w := { st.w with counterLock := true, counter := { st.w.counter with Iteration := 0 } }
        resetter := .atSelect
        log := st.log ++ [.reset] }
  | .atSelect => .stuck

/-- Cases of the `select` in `ResetCounter`. -/
inductive ResetCase where
  | outCh
  | done
  | dflt
deriving DecidableEq, Repr

/-- Lines 101-105 of `ResetCounter` and the deferred `Unlock`: a `select` over
`w.outCh <- w.counter`, `<-w.ctx.Done()` and `default`. -/
def ResetCounter_select (pick : ResetCase) (st : State) : Outcome State :=
  match st.resetter with
  | .atSelect =>
    match pick with
    | .outCh =>
      (st.w.outCh.send .counter).bind fun c =>
        .ok { st with w := { st.w with outCh := c, counterLock := false }, resetter := .idle }
    | .done =>
      if st.w.ctxDone then
        .ok { st with w := { st.w with counterLock := false }, resetter := .idle }
      else .stuck
    | .dflt =>
      if st.w.outCh.sendReady || st.w.ctxDone then .stuck
      else .ok { st with w := { st.w with counterLock := false }, resetter := .idle }
  | .idle => .stuck

/-- The method `Recv` returns `w.outCh`; this is the consumer's receive from it,
`counter := <-watch.Recv()` (handler_websocket.go line 105). -/
def Recv (st : State) : Outcome State :=
  match st.held with
  | none =>
    (st.w.outCh.recv .nil).bind fun r =>
      .ok { st with w := { st.w with outCh := r.2 }, held := some r.1 }
  | some _ => .stuck

/-- The consumer dereferences the pointer it received: `counter.Iteration`
(handler_websocket.go line 107). The value read is the counter's current one. -/
def readIteration (st : State) : Outcome State :=
  match st.held with
  | some .counter =>
    .ok { st with held := none, log := st.log ++ [.observed st.w.counter.Iteration] }
  | some .nil => .panic "invalid memory address or nil pointer dereference"
  | none => .stuck

/-- Labels of the atomic steps. -/
inductive Action where
  | start
  | send (str : String) (pick : SendCase)
  | cancel
  | stopWait
  | tickFire
  | loopSelect (pick : LoopCase)
  | loopSignal
  | loopPublish (pick : LoopCase)
  | loopDefer
  | resetLock
  | resetSelect (pick : ResetCase)
  | recv
  | read
deriving DecidableEq, Repr

/-- One atomic step of the system. -/
def step (a : Action) (st : State) : Outcome State :=
  match a with
  | .start => Start st
  | .send str pick => (st.w.Send str pick).bind fun w => .ok { st with w := w }
  | .cancel => Stop_cancel st
  | .stopWait => Stop_wait st
  | .tickFire => tickFire st
  | .loopSelect pick => mainLoop_select pick st
  | .loopSignal => mainLoop_signal st
  | .loopPublish pick => mainLoop_publish pick st
  | .loopDefer => mainLoop_defer st
  | .resetLock => ResetCounter_lock st
  | .resetSelect pick => ResetCounter_select pick st
  | .recv => Recv st
  | .read => readIteration st

/-- A schedule: the steps taken, in order. -/
def run : List Action → State → Outcome State
  | [], st => .ok st
  | a :: rest, st => (step a st).bind (run rest)

/-- The iterations read by the consumer, oldest first. -/
def observations (log : List LogEntry) : List Int :=
  log.filterMap fun e =>
    match e with
    | .observed n => some n
    | .reset => none

/-- A freshly created and started Watcher: the state after `New()` and
`Start()`. -/
def started (id : String) : State :=
  { State.init id with
    w := { New id with running := 1 }
    loop := .select
    tickerOn := true }

/-- A started Watcher whose loop waits at the outer `select`, with both slots
empty, after the counter reached `n` and the consumer and resetter logged
`log`. -/
def atIteration (id : String) (n : Int) (log : List LogEntry) : State :=
  { started id with
    w := { (started id).w with counter := { Iteration := n, Value := "" } }
    log := log }

/-- One `Send` whose value is published by the loop and drained through `Recv`
before anything else happens: the signal enters the inbound slot, the loop
takes it, processes it and publishes, the consumer receives and reads. -/
def drainedSend (str : String) : List Action :=
  [.send str .inCh, .loopSelect .inCh, .loopSignal, .loopPublish .outCh, .recv, .read]

/-- The same state with one published pointer waiting in the outbound slot. -/
def withPending (st : State) : State :=
  { st with w := { st.w with outCh := { st.w.outCh with buf := [.counter] } } }

/-- A schedule that publishes twice and drains once: afterwards the iteration is
2 and the second publication still waits in the outbound slot. -/
def publishTwice : List Action :=
  drainedSend "a" ++ [.send "b" .inCh, .loopSelect .inCh, .loopSignal, .loopPublish .outCh]

/-- One `Send` accepted into the empty inbound slot and processed by the loop
while the outbound slot is still occupied: the publish attempt is given up at
the next tick of the ticker. -/
def undeliveredSend (str : String) : List Action :=
  [.send str .inCh, .loopSelect .inCh, .loopSignal, .tickFire, .loopPublish .tick]

/-- A burst of `Send` calls without any `Recv`, each taken by the loop before
the next one arrives: the first is published into the empty outbound slot, the
later ones find it occupied. -/
def burst : List String → List Action
  | [] => []
  | str :: rest =>
    [.send str .inCh, .loopSelect .inCh, .loopSignal, .loopPublish .outCh]
      ++ rest.flatMap undeliveredSend

/-- The method `Stop` (lines 74-77) run to completion on a Watcher whose loop
waits at the outer `select`: `cancel`, the loop returns and runs its three
deferred calls, `Wait` returns. -/
def stopSchedule : List Action :=
  [.cancel, .loopSelect .done, .loopDefer, .loopDefer, .loopDefer, .stopWait]

/-- Every logged observation is at most `n` unless a reset was logged after
it. -/
def LogBelow (log : List LogEntry) (n : Int) : Prop :=
  ∀ (l1 l2 : List LogEntry) (a : Int), log = l1 ++ .observed a :: l2 → a ≤ n ∨ LogEntry.reset ∈ l2

/-- An observation is smaller than an earlier one only if a reset was logged
between the two. -/
def DropsOnlyAfterReset (log : List LogEntry) : Prop :=
  ∀ (l1 l2 l3 : List LogEntry) (a b : Int),
    log = l1 ++ .observed a :: (l2 ++ .observed b :: l3) → b < a → LogEntry.reset ∈ l2

/-- Two drained sends, then a `ResetCounter` that publishes, drained as well. -/
def twoSendsThenReset : List Action :=
  drainedSend "a" ++ drainedSend "b" ++ [.resetLock, .resetSelect .outCh, .recv, .read]

/-- The number of non-empty signals that are sent but not yet counted: those
in the inbound slot and the one the loop has taken and not yet processed. -/
def pendingSignals (st : State) : Nat :=
  st.w.inCh.buf.countP (fun str => decide (str ≠ "")) +
    (match st.loop with
      | .got str => if str = "" then 0 else 1
      | _ => 0)

/-- The number of increments on their way to the consumer: the one the loop is
trying to publish, the pointers in the outbound slot, and the pointer the
consumer has received and not yet read. -/
def inFlight (st : State) : Nat :=
  (if st.loop = .publish then 1 else 0) + st.w.outCh.buf.count .counter +
    (if st.held = some .counter then 1 else 0)

/-- Whether a step is a `Send` that puts a non-empty signal into the inbound
slot (1) or not (0). -/
def accepted : Action → Nat
  | .send str .inCh => if str = "" then 0 else 1
  | _ => 0

/-- The number of `Send` calls of a schedule that put a non-empty signal into
the inbound slot. -/
def acceptedCount (tr : List Action) : Nat :=
  (tr.map accepted).sum

/-- Whether a step is a call of `Send`. -/
def isSend : Action → Bool
  | .send _ _ => true
  | _ => false

/-- The number of `Send` calls in a schedule. -/
def sendCount (tr : List Action) : Nat :=
  tr.countP isSend

/-- Whether every `Send` of the schedule carries a non-empty signal and takes
the case that puts it into the inbound slot. -/
def sendsAccepted (tr : List Action) : Bool :=
  tr.all fun a => !isSend a || accepted a == 1

/-- Whether a step belongs to a call of `ResetCounter`. -/
def isReset : Action → Bool
  | .resetLock => true
  | .resetSelect _ => true
  | _ => false

/-- Whether in the schedule `tr`, entered after `sends` calls of `Send` and
`reads` reads by the consumer, every `Send` is issued only when the consumer has
read one value for each earlier `Send`, and at the end one value was read for
each `Send`. -/
def drainedFrom : Nat → Nat → List Action → Bool
  | sends, reads, [] => sends == reads
  | sends, reads, .send _ _ :: rest => sends == reads && drainedFrom (sends + 1) reads rest
  | sends, reads, .read :: rest => drainedFrom sends (reads + 1) rest
  | sends, reads, _ :: rest => drainedFrom sends reads rest

/-- Every `Send` of the schedule is drained before the next one is issued: the
value published for it is received and read by the consumer first. -/
def eachSendDrained (tr : List Action) : Bool :=
  drainedFrom 0 0 tr

/-- The same check as `drainedFrom` with the consumer's receive from `Recv()` in
the place of its read: every `Send` is issued only when one value was received
for each earlier `Send`. -/
def receivedFrom : Nat → Nat → List Action → Bool
  | sends, recvs, [] => sends == recvs
  | sends, recvs, .send _ _ :: rest => sends == recvs && receivedFrom (sends + 1) recvs rest
  | sends, recvs, .recv :: rest => receivedFrom sends (recvs + 1) rest
  | sends, recvs, _ :: rest => receivedFrom sends recvs rest

/-- Three drained sends with a tick of the ticker in between. -/
def drainedThrice : List Action :=
  drainedSend "a" ++ [.tickFire] ++ drainedSend "b" ++ drainedSend "c"

/-- Two sends, each received through `Recv` before the next `Send`, where the
consumer reads the first pointer only after the second increment. -/
def readAfterNextIncrement : List Action :=
  [.send "a" .inCh, .loopSelect .inCh, .loopSignal, .loopPublish .outCh, .recv,
    .send "b" .inCh, .loopSelect .inCh, .loopSignal, .read,
    .loopPublish .outCh, .recv, .read]

/-- Whether the `mainLoop` goroutine has left its loop. -/
def LoopPc.returned : LoopPc → Bool
  | .closeIn | .closeOut | .wgDone | .exited => true
  | _ => false

/-- Invariant of the states a started Watcher can reach: both slots have
capacity 1 and hold at most one element, the outbound slot holds only the
pointer to the Watcher's counter, the write lock is held exactly while
`ResetCounter` is between its assignment and its return, during which the
iteration is 0, and the loop returns and closes the slots only after
cancellation. -/
structure Inv (st : State) : Prop where
  inCap : st.w.inCh.cap = 1
  outCap : st.w.outCh.cap = 1
  inLen : st.w.inCh.buf.length ≤ 1
  outLen : st.w.outCh.buf.length ≤ 1
  outElems : ∀ p ∈ st.w.outCh.buf, p = CounterPtr.counter
  lock : st.w.counterLock = true ↔ st.resetter = ResetPc.atSelect
  resetZero : st.resetter = ResetPc.atSelect → st.w.counter.Iteration = 0
  returned : st.loop.returned = true → st.w.ctxDone = true
  closedIn : st.w.inCh.closed = true → st.w.ctxDone = true
  closedOut : st.w.outCh.closed = true → st.w.ctxDone = true

/-! ## stats.go -/

/-- The struct `sessionStats`; `sent` is an `int64`. -/
structure sessionStats where
  id : String
  sent : Int
deriving DecidableEq, Repr

/-- The struct `statsManager`: the map `sessions` as a partial function from
connection id to entry. Every entry of the Go map is an object of its own, so
an update through one pointer touches no other entry. The mutex serialises the
methods; each method is one atomic step. -/
structure statsManager where
  sessions : String → Option sessionStats

/-- The constructor `newStatsManager`: an empty map. -/
def newStatsManager : statsManager :=
  { sessions := fun _ => none }

/-- The method `increment` (lines 24-36): bump the entry of `id`, or create it
with `sent: 1`. -/
def statsManager.increment (sm : statsManager) (id : String) : statsManager :=
  match sm.sessions id with
  | some stats =>
    { sessions := fun k =>
        if k = id then some { stats with sent := wrapInt64 (stats.sent + 1) } else sm.sessions k }
  | none =>
    { sessions := fun k => if k = id then some { id := id, sent := 1 } else sm.sessions k }

/-- The method `getStats` (lines 38-49): a copy of the entry, or `nil`. -/
def statsManager.getStats (sm : statsManager) (id : String) : Option sessionStats :=
  match sm.sessions id with
  | some stats => some { id := stats.id, sent := stats.sent }
  | none => none

/-- The method `removeStats` (lines 51-59): when the entry exists, its id and
count are logged (second component) and the entry is deleted. -/
def statsManager.removeStats (sm : statsManager) (id : String) :
    statsManager × Option (String × Int) :=
  match sm.sessions id with
  | some stats =>
    ({ sessions := fun k => if k = id then none else sm.sessions k }, some (stats.id, stats.sent))
  | none => (sm, none)

/-- A call on a `statsManager`. -/
inductive StatsOp where
  | increment (id : String)
  | removeStats (id : String)
deriving DecidableEq, Repr

/-- Perform one call. -/
def StatsOp.apply (sm : statsManager) (op : StatsOp) : statsManager :=
  match op with
  | .increment id => sm.increment id
  | .removeStats id => (sm.removeStats id).1

/-- Perform a sequence of calls, first to last, on a manager. -/
def applyOps (sm : statsManager) (ops : List StatsOp) : statsManager :=
  ops.foldl StatsOp.apply sm

/-- The number of `increment(id)` calls in `ops` after the last
`removeStats(id)` (all of them when there is none); `ops` is in call order. -/
def incrementsSinceRemoval (id : String) (ops : List StatsOp) : Nat :=
  ops.foldl
    (fun n op =>
      match op with
      | .increment k => if k = id then n + 1 else n
      | .removeStats k => if k = id then 0 else n)
    0

/-- Calls of two connections: "a" is incremented, removed, and incremented
twice again. -/
def exampleOps : List StatsOp :=
  [.increment "a", .increment "b", .removeStats "a", .increment "a", .increment "a"]

/-! ## server.go, handler_websocket.go -/

/-- The map literal `allowedOrigins` of `isValidOrigin` (lines 160-163). -/
def allowedOrigins : List (String × Bool) :=
  [("http://localhost:8080", true), ("https://localhost:8080", true)]

/-- The method `isValidOrigin` (lines 159-165): indexing the map with a key
that is absent yields the zero value `false`. -/
def isValidOrigin (origin : String) : Bool :=
  (allowedOrigins.lookup origin).getD false

/-- The constant `http.StatusForbidden`. -/
def StatusForbidden : Nat := 403

/-- The constant `http.StatusInternalServerError`. -/
def StatusInternalServerError : Nat := 500

/-- What a goroutine of `handlerWebSocket` does to the outside, one entry per
call. `error status` is the call `s.error(w, status, err)`, which answers the
request; the body of that helper is not among the sources. -/
inductive HandlerEvent where
  | error (status : Nat)
  | watcherNew
  | watcherStart
  | watcherStop
  | addWatcher
  | removeWatcher
  | upgraded
  | connSetup
  | connClose
  | cancel
  | goHeartbeat
  | goReadPump
  | writeMessage (iteration : Int) (value : String)
  | incStats
  | ping
  | resetCounter
  | logged (msg : String)
deriving DecidableEq, Repr

/-- How `conn.WriteMessage` ended. -/
inductive WriteResult where
  | ok
  | closeError
  | otherError
deriving DecidableEq, Repr

/-- What the `select` of the delivery loop (lines 101-126) meets in one round:
the lifecycle token is cancelled, or a counter arrives, with the results of
`json.Marshal` and of `conn.WriteMessage` for it. -/
inductive Delivery where
  | ctxDone
  | counter (iteration : Int) (value : String) (marshalOk : Bool) (write : WriteResult)
deriving DecidableEq, Repr

/-- The delivery loop (lines 101-126): the calls it makes, and whether it
returned (false: the inputs ran out while it was still waiting). -/
def deliveryLoop : List Delivery → List HandlerEvent × Bool
  | [] => ([], false)
  | .ctxDone :: _ => ([], true)
  | .counter iteration value marshalOk write :: rest =>
    if !marshalOk then ([.logged "json marshal error"], true)
    else
      match write with
      | .ok =>
        let r := deliveryLoop rest
        (.writeMessage iteration value :: .incStats :: r.1, r.2)
      | .closeError => ([.writeMessage iteration value], true)
      | .otherError => ([.writeMessage iteration value, .logged "websocket write error"], true)

/-- A function returns: the calls of its body, then the deferred calls, last
registered first. -/
def returning (body : List HandlerEvent) (defers : List HandlerEvent) : List HandlerEvent × Bool :=
  (body ++ defers.reverse, true)

/-- The main goroutine of `handlerWebSocket` (lines 21-127): its calls in order,
and whether it returned. `upgradeOk` is whether `upgrader.Upgrade` succeeded,
`inputs` is what the delivery loop meets. `watch.Start()` always returns `nil`,
so the branch of lines 32-35 is never taken. Each `defer` is added to the list
of deferred calls at the place where the source registers it. -/
def handlerWebSocket (origin : String) (upgradeOk : Bool) (inputs : List Delivery) :
    List HandlerEvent × Bool :=
  let d0 : List HandlerEvent := [.cancel]
  if !isValidOrigin origin then
    returning [.error StatusForbidden] d0
  else
    let b1 : List HandlerEvent := [.watcherNew, .watcherStart]
    let d1 := d0 ++ [.watcherStop]
    let b2 := b1 ++ [.addWatcher]
    let d2 := d1 ++ [.removeWatcher]
    if !upgradeOk then
      returning (b2 ++ [.error StatusInternalServerError]) d2
    else
      let d3 := d2 ++ [.connClose]
      let b3 := b2 ++ [.upgraded, .connSetup, .goHeartbeat, .goReadPump]
      let r := deliveryLoop inputs
      if r.2 then returning (b3 ++ r.1) d3 else (b3 ++ r.1, false)

/-- What the heartbeat goroutine (lines 64-78) meets in one round of its
`select`: a tick, with whether the ping could be written, or cancellation. -/
inductive Heartbeat where
  | tick (pingOk : Bool)
  | ctxDone
deriving DecidableEq, Repr

/-- The heartbeat goroutine (lines 64-78): its calls, and whether it returned.
Its only deferred call is `ticker.Stop()`. -/
def heartbeatPump : List Heartbeat → List HandlerEvent × Bool
  | [] => ([], false)
  | .ctxDone :: _ => ([], true)
  | .tick pingOk :: rest =>
    if pingOk then
      let r := heartbeatPump rest
      (.ping :: r.1, r.2)
    else ([.ping], true)

/-- What `conn.ReadMessage` gives the read pump (lines 80-99): an error, or a
message, with whether it parses as JSON. -/
inductive Inbound where
  | readError
  | message (wellFormed : Bool)
deriving DecidableEq, Repr

/-- The body of the read pump's loop (lines 82-98), without the deferred call. -/
def readLoop : List Inbound → List HandlerEvent × Bool
  | [] => ([], false)
  | .readError :: _ => ([], true)
  | .message wellFormed :: rest =>
    let r := readLoop rest
    if wellFormed then (.resetCounter :: r.1, r.2)
    else (.logged "invalid message format" :: r.1, r.2)

/-- The read pump goroutine (lines 80-99) with its `defer cancel()`. -/
def readPump (inputs : List Inbound) : List HandlerEvent × Bool :=
  let r := readLoop inputs
  if r.2 then returning r.1 [.cancel] else r

/-- Whether `a` and `b` both occur in `evs` and the first `a` comes before the
first `b`. -/
def happensBefore (a b : HandlerEvent) (evs : List HandlerEvent) : Bool :=
  evs.contains a && evs.contains b && decide (evs.indexOf a < evs.indexOf b)

/-! ## string.go -/

/-- The digits used by Go's `encoding/hex`: `"0123456789abcdef"`. -/
def hextable : List Char := "0123456789abcdef".toList

/-- Two digits for one byte, as `hex.Encode` writes them: `hextable[b>>4]`,
`hextable[b&0x0f]`. -/
def hexEncodeByte (b : Nat) : List Char :=
  [hextable.getD (b / 16) '0', hextable.getD (b % 16) '0']

/-- The digits `hex.Encode` writes for a byte slice. -/
def hexEncode (bytes : List Nat) : List Char :=
  bytes.flatMap hexEncodeByte

/-- The constant `maxAlloc` of the Go runtime on a 64-bit platform, 2^48 bytes:
`make` panics for a larger slice. -/
def maxAlloc : Nat := 281474976710656

/-- The Go expression `make([]byte, n)`; the result is the length of the new
slice. `mem` is the size of the largest block the runtime can obtain from the
system when the call is made. A negative size and a size above `maxAlloc` panic
with "len out of range"; a size the system cannot provide ends the program
with the fatal error "out of memory". -/
def makeBytes (mem : Nat) (n : Int) : Outcome Nat :=
  if n < 0 ∨ (maxAlloc : Int) < n then .panic "makeslice: len out of range"
  else if (mem : Int) < n then .panic "fatal error: runtime: out of memory"
  else .ok n.toNat

/-- The function `hex.EncodeToString`: it allocates `make([]byte, len(src)*2)`,
fills it with the digits and converts it to a string. -/
def EncodeToString (mem : Nat) (bytes : List Nat) : Outcome String :=
  (makeBytes mem (2 * (bytes.length : Int))).bind fun _ => .ok (String.mk (hexEncode bytes))

/-- The random source `crypto/rand`: `none` when reading from it fails,
otherwise the stream of bytes it delivers. -/
abbrev RandSource := Option (Nat → Nat)

/-- The call `rand.Read(bytes)` on a slice of `n` bytes: the bytes read, or
`none` for an error. Nothing is read for an empty slice, so that call succeeds
whatever the source. (From Go 1.24 on a failing source aborts the program
instead of returning an error; the error return of the source is modelled.) -/
def randRead (src : RandSource) (n : Nat) : Option (List Nat) :=
  if n = 0 then some []
  else
    match src with
    | some stream => some ((List.range n).map fun i => stream i % 256)
    | none => none

/-- The method `GenerateHex` (lines 17-34). The result is the pair
`(string, error)` with `none` for the `nil` error. `length` is a Go `int`, so
`length+1` wraps; `mem` is the size of the largest block the runtime can obtain
(see `makeBytes`); the slice expression panics on a negative bound. -/
def GenerateHex (length : Int) (src : RandSource) (mem : Nat) :
    Outcome (String × Option String) :=
  (makeBytes mem (Int.tdiv (wrapInt64 (length + 1)) 2)).bind fun n =>
    match randRead src n with
    | none => .ok ("", some "rand.Read failed")
    | some bytes =>
      (EncodeToString mem bytes).bind fun hexStr =>
        if (hexStr.length : Int) > length then
          if length < 0 then .panic "slice bounds out of range"
          else .ok (String.mk (hexStr.toList.take length.toNat), none)
        else .ok (hexStr, none)

/-- A character of the class `[0-9A-F]`. -/
def isUpperHexDigit (c : Char) : Bool :=
  ('0' ≤ c && c ≤ '9') || ('A' ≤ c && c ≤ 'F')

/-- The regular expression of `TestGenerateHex`, `^[0-9A-F]*$`: does it match
the whole of `s`? -/
def hexPattern (s : String) : Bool :=
  s.toList.all isUpperHexDigit

/-- A character of the class `[0-9a-f]`. -/
def isLowerHexDigit (c : Char) : Bool :=
  ('0' ≤ c && c ≤ '9') || ('a' ≤ c && c ≤ 'f')

/-! ## Basic facts -/

theorem wrapInt64_eq_self (x : Int) (h1 : -9223372036854775808 ≤ x)
    (h2 : x < 9223372036854775808) : wrapInt64 x = x := by
  unfold wrapInt64
  omega

theorem run_append (a b : List Action) (st : State) :
    run (a ++ b) st = (run a st).bind (run b) := by
  induction a generalizing st with
  | nil => rfl
  | cons x xs ih =>
    simp only [List.cons_append, run]
    cases step x st <;> simp [Outcome.bind, ih]

theorem run_singleton (a : Action) (st : State) : run [a] st = step a st := by
  simp only [run]
  cases step a st <;> rfl

theorem Start_init (id : String) : Start (State.init id) = .ok (started id) := rfl

theorem started_eq_atIteration (id : String) : started id = atIteration id 0 [] := rfl

/-! ## Sends drained one at a time -/

theorem run_drainedSend (id : String) (n : Int) (log : List LogEntry) (str : String)
    (hstr : str ≠ "") (h1 : -9223372036854775808 ≤ n + 1) (h2 : n + 1 < 9223372036854775808) :
    run (drainedSend str) (atIteration id n log)
      = .ok (atIteration id (n + 1) (log ++ [.observed (n + 1)])) := by
  simp [drainedSend, run, step, atIteration, started, State.init, New, Chan.make,
    Watcher.Send, Chan.send, Outcome.bind, mainLoop_select, Chan.recv, mainLoop_signal,
    mainLoop_publish, Recv, readIteration, hstr, wrapInt64_eq_self _ h1 h2]

theorem run_drainedSends (id : String) (sigs : List String) (hne : ∀ s ∈ sigs, s ≠ "") :
    ∀ (n : Int) (log : List LogEntry), 0 ≤ n → n + sigs.length < 9223372036854775808 →
      run (sigs.flatMap drainedSend) (atIteration id n log)
        = .ok (atIteration id (n + sigs.length)
            (log ++ (List.range' 1 sigs.length).map fun k => LogEntry.observed (n + (k : Nat)))) := by
  induction sigs with
  | nil => intro n log _ _; simp [run]
  | cons s rest ih =>
    intro n log h0 hlt
    have hs : s ≠ "" := hne s (List.mem_cons_self _ _)
    have hrest : ∀ t ∈ rest, t ≠ "" := fun t ht => hne t (List.mem_cons_of_mem _ ht)
    simp only [List.length_cons, Nat.cast_add, Nat.cast_one] at hlt
    rw [List.flatMap_cons, run_append, run_drainedSend id n log s hs (by omega) (by omega)]
    simp only [Outcome.bind]
    rw [ih hrest (n + 1) _ (by omega) (by omega)]
    congr 2
    · simp only [List.length_cons, Nat.cast_add, Nat.cast_one]; omega
    · rw [List.length_cons, List.range'_succ, List.map_cons, List.append_assoc,
        List.singleton_append]
      congr 2
      rw [List.range'_eq_map_range, List.range'_eq_map_range]
      simp only [List.map_map]
      apply List.map_congr_left
      intro k _
      simp only [Function.comp]
      congr 1
      push_cast
      omega

theorem observations_append (a b : List LogEntry) :
    observations (a ++ b) = observations a ++ observations b := by
  simp [observations, List.filterMap_append]

theorem observations_map_observed (f : Nat → Int) (l : List Nat) :
    observations (l.map fun k => LogEntry.observed (f k)) = l.map f := by
  induction l with
  | nil => rfl
  | cons x xs ih =>
    simp only [observations, List.map_cons, List.filterMap_cons] at ih ⊢
    rw [ih]

theorem canonical_drained_schedule_runs (id : String) (sigs : List String)
    (hne : ∀ s ∈ sigs, s ≠ "") (hlen : sigs.length < 9223372036854775808) :
    ∃ st, run (sigs.flatMap drainedSend) (started id) = .ok st ∧
      observations st.log = (List.range' 1 sigs.length).map (fun k : Nat => (k : Int)) ∧
      st.w.counter.Iteration = sigs.length := by
  have h := run_drainedSends id sigs hne 0 [] (le_refl 0) (by omega)
  rw [started_eq_atIteration]
  refine ⟨_, h, ?_, ?_⟩
  · show observations ([] ++ _) = _
    rw [List.nil_append, observations_map_observed (fun k => 0 + (k : Int))]
    apply List.map_congr_left
    intro k _
    omega
  · simp [atIteration]

/-! ## Invariant of the reachable states -/

theorem Inv_started (id : String) : Inv (started id) := by
  constructor <;> simp [started, State.init, New, Chan.make, LoopPc.returned]


theorem ok_inj {σ : Type} {a b : σ} (h : Outcome.ok a = Outcome.ok b) : a = b := by
  injection h

theorem bind_ok_iff {σ τ : Type} (o : Outcome σ) (f : σ → Outcome τ) (y : τ) :
    o.bind f = .ok y ↔ ∃ x, o = .ok x ∧ f x = .ok y := by
  cases o <;> simp [Outcome.bind]

theorem Chan.send_ok_iff {α : Type} (c c' : Chan α) (v : α) :
    c.send v = .ok c' ↔
      c.closed = false ∧ c.buf.length < c.cap ∧ c' = { c with buf := c.buf ++ [v] } := by
  unfold Chan.send
  by_cases hc : c.closed = true
  · simp [hc]
  · by_cases hl : c.buf.length < c.cap
    · simp [hc, hl, eq_comm]
    · simp [hc, hl]

theorem Chan.recv_ok_iff {α : Type} (zero : α) (c : Chan α) (r : α × Chan α) :
    c.recv zero = .ok r ↔
      (∃ v rest, c.buf = v :: rest ∧ r = (v, { c with buf := rest })) ∨
      (c.buf = [] ∧ c.closed = true ∧ r = (zero, c)) := by
  unfold Chan.recv
  split
  · next v rest h =>
    constructor
    · intro e
      cases ok_inj e
      exact Or.inl ⟨v, rest, h, rfl⟩
    · rintro (⟨v', rest', h', rfl⟩ | ⟨h', -, -⟩)
      · rw [h] at h'
        cases h'
        rfl
      · rw [h] at h'
        cases h'
  · next h =>
    by_cases hc : c.closed = true
    · simp only [hc, if_true]
      constructor
      · intro e
        cases ok_inj e
        exact Or.inr ⟨h, trivial, rfl⟩
      · rintro (⟨v', rest', h', -⟩ | ⟨-, -, rfl⟩)
        · rw [h] at h'
          cases h'
        · rfl
    · simp only [hc]
      constructor
      · intro e
        cases e
      · rintro (⟨v', rest', h', -⟩ | ⟨-, h', -⟩)
        · rw [h] at h'
          cases h'
        · exact Bool.noConfusion h'

theorem Chan.close_ok_iff {α : Type} (c c' : Chan α) :
    c.close = .ok c' ↔ c.closed = false ∧ c' = { c with closed := true } := by
  unfold Chan.close
  by_cases hc : c.closed = true
  · simp [hc]
  · simp [hc, eq_comm]

theorem Inv_Start (st st' : State) (h : Inv st) (hs : Start st = .ok st') : Inv st' := by
  unfold Start at hs
  split at hs
  · next hl =>
    cases ok_inj hs
    obtain ⟨h1, h2, h3, h4, h5, h6, h7, h8, h9, h10⟩ := h
    constructor <;> first | assumption | simp [LoopPc.returned]
  · cases hs

theorem Inv_Send (str : String) (pick : SendCase) (st : State) (w : Watcher) (h : Inv st)
    (hs : st.w.Send str pick = .ok w) : Inv { st with w := w } := by
  obtain ⟨h1, h2, h3, h4, h5, h6, h7, h8, h9, h10⟩ := h
  unfold Watcher.Send at hs
  cases pick
  · simp only [bind_ok_iff, Chan.send_ok_iff] at hs
    obtain ⟨c, ⟨hc, hl, rfl⟩, hw⟩ := hs
    cases ok_inj hw
    constructor <;> first | assumption | (simp only [List.length_append, List.length_singleton]; omega)
  · simp only at hs
    split at hs
    · cases ok_inj hs
      constructor <;> assumption
    · cases hs
  · simp only at hs
    split at hs
    · cases hs
    · cases ok_inj hs
      constructor <;> assumption

theorem Inv_mainLoop_select (pick : LoopCase) (st st' : State) (h : Inv st)
    (hs : mainLoop_select pick st = .ok st') : Inv st' := by
  obtain ⟨h1, h2, h3, h4, h5, h6, h7, h8, h9, h10⟩ := h
  unfold mainLoop_select at hs
  split at hs
  · cases pick
    · simp only at hs
      split at hs
      · next hd =>
        cases ok_inj hs
        constructor <;> first | assumption | exact fun _ => hd
      · cases hs
    · simp only [bind_ok_iff, Chan.recv_ok_iff] at hs
      obtain ⟨r, (⟨v, rest, hb, rfl⟩ | ⟨hb, hc, rfl⟩), hw⟩ := hs
      · cases ok_inj hw
        rw [hb] at h3
        constructor <;> first | assumption | (simp only [List.length_cons] at h3 ⊢; omega) |
          (intro hr; exact Bool.noConfusion hr)
      · cases ok_inj hw
        constructor <;> first | assumption | (intro hr; exact Bool.noConfusion hr)
    · cases hs
    · cases hs
  · cases hs

theorem Inv_mainLoop_signal (st st' : State) (h : Inv st)
    (hs : mainLoop_signal st = .ok st') : Inv st' := by
  obtain ⟨h1, h2, h3, h4, h5, h6, h7, h8, h9, h10⟩ := h
  unfold mainLoop_signal at hs
  split at hs
  · split at hs
    · cases ok_inj hs
      constructor <;> first | assumption | (intro hr; exact Bool.noConfusion hr)
    · split at hs
      · cases hs
      · next hl =>
        cases ok_inj hs
        constructor <;> first | assumption | (intro hr; exact Bool.noConfusion hr) |
          (intro hr; exact absurd (h6.mpr hr) hl)
  · cases hs

theorem Inv_mainLoop_publish (pick : LoopCase) (st st' : State) (h : Inv st)
    (hs : mainLoop_publish pick st = .ok st') : Inv st' := by
  obtain ⟨h1, h2, h3, h4, h5, h6, h7, h8, h9, h10⟩ := h
  unfold mainLoop_publish at hs
  split at hs
  · cases pick
    · simp only at hs
      split at hs
      · next hd =>
        cases ok_inj hs
        constructor <;> first | assumption | exact fun _ => hd
      · cases hs
    · cases hs
    · simp only [bind_ok_iff, Chan.send_ok_iff] at hs
      obtain ⟨c, ⟨hc, hl, rfl⟩, hw⟩ := hs
      cases ok_inj hw
      constructor <;> first | assumption | (intro hr; exact Bool.noConfusion hr) |
        (simp only [List.length_append, List.length_singleton]; omega) | skip
      · intro p hp
        rcases List.mem_append.mp hp with hp | hp
        · exact h5 p hp
        · exact List.mem_singleton.mp hp
    · simp only at hs
      split at hs
      · cases ok_inj hs
        constructor <;> first | assumption | (intro hr; exact Bool.noConfusion hr)
      · cases hs
  · cases hs

theorem Inv_mainLoop_defer (st st' : State) (h : Inv st)
    (hs : mainLoop_defer st = .ok st') : Inv st' := by
  obtain ⟨h1, h2, h3, h4, h5, h6, h7, h8, h9, h10⟩ := h
  unfold mainLoop_defer at hs
  split at hs
  · next hl =>
    rw [hl] at h8
    simp only [bind_ok_iff, Chan.close_ok_iff] at hs
    obtain ⟨c, ⟨hc, rfl⟩, hw⟩ := hs
    cases ok_inj hw
    constructor <;> assumption
  · next hl =>
    rw [hl] at h8
    simp only [bind_ok_iff, Chan.close_ok_iff] at hs
    obtain ⟨c, ⟨hc, rfl⟩, hw⟩ := hs
    cases ok_inj hw
    constructor <;> assumption
  · next hl =>
    rw [hl] at h8
    split at hs
    · cases hs
    · cases ok_inj hs
      constructor <;> assumption
  · cases hs

theorem Inv_ResetCounter_lock (st st' : State) (h : Inv st)
    (hs : ResetCounter_lock st = .ok st') : Inv st' := by
  obtain ⟨h1, h2, h3, h4, h5, h6, h7, h8, h9, h10⟩ := h
  unfold ResetCounter_lock at hs
  split at hs
  · split at hs
    · cases hs
    · cases ok_inj hs
      constructor <;> first | assumption | exact fun _ => rfl | exact ⟨fun _ => rfl, fun _ => rfl⟩
  · cases hs

theorem Inv_ResetCounter_select (pick : ResetCase) (st st' : State) (h : Inv st)
    (hs : ResetCounter_select pick st = .ok st') : Inv st' := by
  obtain ⟨h1, h2, h3, h4, h5, h6, h7, h8, h9, h10⟩ := h
  have hlock : (false = true) ↔ ResetPc.idle = ResetPc.atSelect :=
    ⟨fun e => Bool.noConfusion e, fun e => ResetPc.noConfusion e⟩
  have hzero : ResetPc.idle = ResetPc.atSelect → st.w.counter.Iteration = 0 :=
    fun e => ResetPc.noConfusion e
  unfold ResetCounter_select at hs
  split at hs
  · cases pick
    · simp only [bind_ok_iff, Chan.send_ok_iff] at hs
      obtain ⟨c, ⟨hc, hl, rfl⟩, hw⟩ := hs
      cases ok_inj hw
      constructor <;> first | assumption |
        (simp only [List.length_append, List.length_singleton]; omega) | skip
      · intro p hp
        rcases List.mem_append.mp hp with hp | hp
        · exact h5 p hp
        · exact List.mem_singleton.mp hp
    · simp only at hs
      split at hs
      · cases ok_inj hs
        constructor <;> assumption
      · cases hs
    · simp only at hs
      split at hs
      · cases hs
      · cases ok_inj hs
        constructor <;> assumption
  · cases hs

theorem Inv_Recv (st st' : State) (h : Inv st) (hs : Recv st = .ok st') : Inv st' := by
  obtain ⟨h1, h2, h3, h4, h5, h6, h7, h8, h9, h10⟩ := h
  unfold Recv at hs
  split at hs
  · simp only [bind_ok_iff, Chan.recv_ok_iff] at hs
    obtain ⟨r, (⟨v, rest, hb, rfl⟩ | ⟨hb, hc, rfl⟩), hw⟩ := hs
    · cases ok_inj hw
      rw [hb] at h4 h5
      constructor <;> first | assumption | (simp only [List.length_cons] at h4 ⊢; omega) |
        exact fun p hp => h5 p (List.mem_cons_of_mem _ hp)
    · cases ok_inj hw
      constructor <;> assumption
  · cases hs

theorem Inv_readIteration (st st' : State) (h : Inv st)
    (hs : readIteration st = .ok st') : Inv st' := by
  obtain ⟨h1, h2, h3, h4, h5, h6, h7, h8, h9, h10⟩ := h
  unfold readIteration at hs
  split at hs
  · cases ok_inj hs
    constructor <;> assumption
  · cases hs
  · cases hs

theorem Inv_step (a : Action) (st st' : State) (h : Inv st) (hs : step a st = .ok st') :
    Inv st' := by
  cases a with
  | start => exact Inv_Start st st' h hs
  | send str pick =>
    simp only [step, bind_ok_iff] at hs
    obtain ⟨w, hw, hst⟩ := hs
    cases ok_inj hst
    exact Inv_Send str pick st w h hw
  | cancel =>
    obtain ⟨h1, h2, h3, h4, h5, h6, h7, h8, h9, h10⟩ := h
    cases ok_inj hs
    constructor <;> first | assumption | exact fun _ => rfl
  | stopWait =>
    simp only [step, Stop_wait] at hs
    split at hs
    · cases ok_inj hs
      exact h
    · cases hs
  | tickFire =>
    obtain ⟨h1, h2, h3, h4, h5, h6, h7, h8, h9, h10⟩ := h
    simp only [step, tickFire] at hs
    split at hs
    · cases ok_inj hs
      constructor <;> assumption
    · cases hs
  | loopSelect pick => exact Inv_mainLoop_select pick st st' h hs
  | loopSignal => exact Inv_mainLoop_signal st st' h hs
  | loopPublish pick => exact Inv_mainLoop_publish pick st st' h hs
  | loopDefer => exact Inv_mainLoop_defer st st' h hs
  | resetLock => exact Inv_ResetCounter_lock st st' h hs
  | resetSelect pick => exact Inv_ResetCounter_select pick st st' h hs
  | recv => exact Inv_Recv st st' h hs
  | read => exact Inv_readIteration st st' h hs

theorem Inv_run (tr : List Action) (st st' : State) (h : Inv st) (hs : run tr st = .ok st') :
    Inv st' := by
  induction tr generalizing st with
  | nil => cases ok_inj hs; exact h
  | cons a rest ih =>
    simp only [run, bind_ok_iff] at hs
    obtain ⟨st1, h1, h2⟩ := hs
    exact ih st1 (Inv_step a st st1 h h1) h2

/-! ## What a step does to the counter, the log and the lifecycle token -/

theorem step_effect (a : Action) (st st' : State) (hs : step a st = .ok st') :
    (st'.w.counter.Iteration = st.w.counter.Iteration ∧ st'.log = st.log) ∨
    (a = .loopSignal ∧ st.w.counterLock = false ∧
      st'.w.counter.Iteration = wrapInt64 (st.w.counter.Iteration + 1) ∧ st'.log = st.log) ∨
    (a = .resetLock ∧ st'.w.counter.Iteration = 0 ∧ st'.log = st.log ++ [.reset]) ∨
    (a = .read ∧ st'.w.counter.Iteration = st.w.counter.Iteration ∧
      st'.log = st.log ++ [.observed st.w.counter.Iteration]) := by
  cases a with
  | start =>
    simp only [step, Start] at hs
    split at hs
    · cases ok_inj hs; exact Or.inl ⟨rfl, rfl⟩
    · cases hs
  | send str pick =>
    simp only [step, bind_ok_iff] at hs
    obtain ⟨w, hw, hst⟩ := hs
    cases ok_inj hst
    unfold Watcher.Send at hw
    cases pick
    · simp only [bind_ok_iff, Chan.send_ok_iff] at hw
      obtain ⟨c, -, hw⟩ := hw
      cases ok_inj hw; exact Or.inl ⟨rfl, rfl⟩
    · simp only at hw
      split at hw
      · cases ok_inj hw; exact Or.inl ⟨rfl, rfl⟩
      · cases hw
    · simp only at hw
      split at hw
      · cases hw
      · cases ok_inj hw; exact Or.inl ⟨rfl, rfl⟩
  | cancel => cases ok_inj hs; exact Or.inl ⟨rfl, rfl⟩
  | stopWait =>
    simp only [step, Stop_wait] at hs
    split at hs
    · cases ok_inj hs; exact Or.inl ⟨rfl, rfl⟩
    · cases hs
  | tickFire =>
    simp only [step, tickFire] at hs
    split at hs
    · cases ok_inj hs; exact Or.inl ⟨rfl, rfl⟩
    · cases hs
  | loopSelect pick =>
    simp only [step, mainLoop_select] at hs
    split at hs
    · cases pick
      · simp only at hs
        split at hs
        · cases ok_inj hs; exact Or.inl ⟨rfl, rfl⟩
        · cases hs
      · simp only [bind_ok_iff] at hs
        obtain ⟨r, -, hw⟩ := hs
        cases ok_inj hw; exact Or.inl ⟨rfl, rfl⟩
      · cases hs
      · cases hs
    · cases hs
  | loopSignal =>
    simp only [step, mainLoop_signal] at hs
    split at hs
    · split at hs
      · cases ok_inj hs; exact Or.inl ⟨rfl, rfl⟩
      · split at hs
        · cases hs
        · next hl =>
          cases ok_inj hs
          exact Or.inr (Or.inl ⟨rfl, by simpa using hl, rfl, rfl⟩)
    · cases hs
  | loopPublish pick =>
    simp only [step, mainLoop_publish] at hs
    split at hs
    · cases pick
      · simp only at hs
        split at hs
        · cases ok_inj hs; exact Or.inl ⟨rfl, rfl⟩
        · cases hs
      · cases hs
      · simp only [bind_ok_iff] at hs
        obtain ⟨r, -, hw⟩ := hs
        cases ok_inj hw; exact Or.inl ⟨rfl, rfl⟩
      · simp only at hs
        split at hs
        · cases ok_inj hs; exact Or.inl ⟨rfl, rfl⟩
        · cases hs
    · cases hs
  | loopDefer =>
    simp only [step, mainLoop_defer] at hs
    split at hs
    · simp only [bind_ok_iff] at hs
      obtain ⟨r, -, hw⟩ := hs
      cases ok_inj hw; exact Or.inl ⟨rfl, rfl⟩
    · simp only [bind_ok_iff] at hs
      obtain ⟨r, -, hw⟩ := hs
      cases ok_inj hw; exact Or.inl ⟨rfl, rfl⟩
    · split at hs
      · cases hs
      · cases ok_inj hs; exact Or.inl ⟨rfl, rfl⟩
    · cases hs
  | resetLock =>
    simp only [step, ResetCounter_lock] at hs
    split at hs
    · split at hs
      · cases hs
      · cases ok_inj hs
        exact Or.inr (Or.inr (Or.inl ⟨rfl, rfl, rfl⟩))
    · cases hs
  | resetSelect pick =>
    simp only [step, ResetCounter_select] at hs
    split at hs
    · cases pick
      · simp only [bind_ok_iff] at hs
        obtain ⟨r, -, hw⟩ := hs
        cases ok_inj hw; exact Or.inl ⟨rfl, rfl⟩
      · simp only at hs
        split at hs
        · cases ok_inj hs; exact Or.inl ⟨rfl, rfl⟩
        · cases hs
      · simp only at hs
        split at hs
        · cases hs
        · cases ok_inj hs; exact Or.inl ⟨rfl, rfl⟩
    · cases hs
  | recv =>
    simp only [step, Recv] at hs
    split at hs
    · simp only [bind_ok_iff] at hs
      obtain ⟨r, -, hw⟩ := hs
      cases ok_inj hw; exact Or.inl ⟨rfl, rfl⟩
    · cases hs
  | read =>
    simp only [step, readIteration] at hs
    split at hs
    · cases ok_inj hs
      exact Or.inr (Or.inr (Or.inr ⟨rfl, rfl, rfl⟩))
    · cases hs
    · cases hs

theorem step_ctxDone (a : Action) (st st' : State) (ha : a ≠ .cancel)
    (hs : step a st = .ok st') : st'.w.ctxDone = st.w.ctxDone := by
  cases a with
  | start =>
    simp only [step, Start] at hs
    split at hs
    · cases ok_inj hs; rfl
    · cases hs
  | send str pick =>
    simp only [step, bind_ok_iff] at hs
    obtain ⟨w, hw, hst⟩ := hs
    cases ok_inj hst
    unfold Watcher.Send at hw
    cases pick
    · simp only [bind_ok_iff, Chan.send_ok_iff] at hw
      obtain ⟨c, -, hw⟩ := hw
      cases ok_inj hw; rfl
    · simp only at hw
      split at hw
      · cases ok_inj hw; rfl
      · cases hw
    · simp only at hw
      split at hw
      · cases hw
      · cases ok_inj hw; rfl
  | cancel => exact absurd rfl ha
  | stopWait =>
    simp only [step, Stop_wait] at hs
    split at hs
    · cases ok_inj hs; rfl
    · cases hs
  | tickFire =>
    simp only [step, tickFire] at hs
    split at hs
    · cases ok_inj hs; rfl
    · cases hs
  | loopSelect pick =>
    simp only [step, mainLoop_select] at hs
    split at hs
    · cases pick
      · simp only at hs
        split at hs
        · cases ok_inj hs; rfl
        · cases hs
      · simp only [bind_ok_iff] at hs
        obtain ⟨r, -, hw⟩ := hs
        cases ok_inj hw; rfl
      · cases hs
      · cases hs
    · cases hs
  | loopSignal =>
    simp only [step, mainLoop_signal] at hs
    split at hs
    · split at hs
      · cases ok_inj hs; rfl
      · split at hs
        · cases hs
        · cases ok_inj hs; rfl
    · cases hs
  | loopPublish pick =>
    simp only [step, mainLoop_publish] at hs
    split at hs
    · cases pick
      · simp only at hs
        split at hs
        · cases ok_inj hs; rfl
        · cases hs
      · cases hs
      · simp only [bind_ok_iff] at hs
        obtain ⟨r, -, hw⟩ := hs
        cases ok_inj hw; rfl
      · simp only at hs
        split at hs
        · cases ok_inj hs; rfl
        · cases hs
    · cases hs
  | loopDefer =>
    simp only [step, mainLoop_defer] at hs
    split at hs
    · simp only [bind_ok_iff] at hs
      obtain ⟨r, -, hw⟩ := hs
      cases ok_inj hw; rfl
    · simp only [bind_ok_iff] at hs
      obtain ⟨r, -, hw⟩ := hs
      cases ok_inj hw; rfl
    · split at hs
      · cases hs
      · cases ok_inj hs; rfl
    · cases hs
  | resetLock =>
    simp only [step, ResetCounter_lock] at hs
    split at hs
    · split at hs
      · cases hs
      · cases ok_inj hs; rfl
    · cases hs
  | resetSelect pick =>
    simp only [step, ResetCounter_select] at hs
    split at hs
    · cases pick
      · simp only [bind_ok_iff] at hs
        obtain ⟨r, -, hw⟩ := hs
        cases ok_inj hw; rfl
      · simp only at hs
        split at hs
        · cases ok_inj hs; rfl
        · cases hs
      · simp only at hs
        split at hs
        · cases hs
        · cases ok_inj hs; rfl
    · cases hs
  | recv =>
    simp only [step, Recv] at hs
    split at hs
    · simp only [bind_ok_iff] at hs
      obtain ⟨r, -, hw⟩ := hs
      cases ok_inj hw; rfl
    · cases hs
  | read =>
    simp only [step, readIteration] at hs
    split at hs
    · cases ok_inj hs; rfl
    · cases hs
    · cases hs

theorem run_ctxDone (tr : List Action) (st st' : State) (htr : Action.cancel ∉ tr)
    (hs : run tr st = .ok st') : st'.w.ctxDone = st.w.ctxDone := by
  induction tr generalizing st with
  | nil => cases ok_inj hs; rfl
  | cons a rest ih =>
    simp only [run, bind_ok_iff] at hs
    obtain ⟨st1, h1, h2⟩ := hs
    rw [ih st1 (fun h => htr (List.mem_cons_of_mem _ h)) h2]
    exact step_ctxDone a st st1 (fun h => htr (h ▸ List.mem_cons_self _ _)) h1

theorem run_stays_zero (tr : List Action) (st st' : State) (htr : Action.loopSignal ∉ tr)
    (hs : run tr st = .ok st') (h0 : st.w.counter.Iteration = 0) :
    st'.w.counter.Iteration = 0 ∧
      ∃ new, st'.log = st.log ++ new ∧ ∀ n ∈ observations new, n = 0 := by
  induction tr generalizing st with
  | nil =>
    cases ok_inj hs
    exact ⟨h0, [], (List.append_nil _).symm, fun n hn => by cases hn⟩
  | cons a rest ih =>
    simp only [run, bind_ok_iff] at hs
    obtain ⟨st1, h1, h2⟩ := hs
    have ha : a ≠ .loopSignal := fun h => htr (h ▸ List.mem_cons_self _ _)
    have hrest : Action.loopSignal ∉ rest := fun h => htr (List.mem_cons_of_mem _ h)
    rcases step_effect a st st1 h1 with ⟨hi, hl⟩ | ⟨e, -⟩ | ⟨-, hi, hl⟩ | ⟨-, hi, hl⟩
    · obtain ⟨hz, new, hlog, hobs⟩ := ih st1 hrest h2 (hi.trans h0)
      exact ⟨hz, new, by rw [hlog, hl], hobs⟩
    · exact absurd e ha
    · obtain ⟨hz, new, hlog, hobs⟩ := ih st1 hrest h2 hi
      refine ⟨hz, .reset :: new, by rw [hlog, hl, List.append_assoc]; rfl, ?_⟩
      intro n hn
      exact hobs n (by simpa [observations] using hn)
    · obtain ⟨hz, new, hlog, hobs⟩ := ih st1 hrest h2 (hi.trans h0)
      refine ⟨hz, .observed st.w.counter.Iteration :: new,
        by rw [hlog, hl, List.append_assoc]; rfl, ?_⟩
      intro n hn
      have hn' : n = st.w.counter.Iteration ∨ n ∈ observations new := by
        simpa [observations] using hn
      rcases hn' with hn' | hn'
      · rw [hn', h0]
      · exact hobs n hn'

theorem ResetCounter_select_running (pick : ResetCase) (st st' : State) (h : Inv st)
    (hrun : st.w.ctxDone = false) (hs : ResetCounter_select pick st = .ok st') :
    st'.w.counter.Iteration = 0 ∧ st'.w.outCh.buf = [.counter] ∧ st'.resetter = .idle := by
  obtain ⟨h1, h2, h3, h4, h5, h6, h7, h8, h9, h10⟩ := h
  unfold ResetCounter_select at hs
  split at hs
  · next hr =>
    have hz := h7 hr
    cases pick
    · simp only [bind_ok_iff, Chan.send_ok_iff] at hs
      obtain ⟨c, ⟨hc, hl, rfl⟩, hw⟩ := hs
      cases ok_inj hw
      refine ⟨hz, ?_, rfl⟩
      have : st.w.outCh.buf = [] := List.eq_nil_of_length_eq_zero (by omega)
      simp only [this, List.nil_append]
    · simp only at hs
      split at hs
      · next hd => rw [hrun] at hd; cases hd
      · cases hs
    · simp only at hs
      split at hs
      · cases hs
      · next hn =>
        cases ok_inj hs
        refine ⟨hz, ?_, rfl⟩
        simp only [Chan.sendReady, hrun, Bool.or_false, Bool.or_eq_true, decide_eq_true_eq,
          not_or, not_lt] at hn
        show st.w.outCh.buf = [.counter]
        match hb : st.w.outCh.buf with
        | [] => rw [hb] at hn; simp only [List.length_nil] at hn; omega
        | [p] =>
          rw [h5 p (by rw [hb]; exact List.mem_singleton_self p)]
        | p :: q :: rest => rw [hb] at h4; simp only [List.length_cons] at h4; omega
  · cases hs

theorem run_recv_read (st : State) (hheld : st.held = none)
    (hbuf : st.w.outCh.buf = [.counter]) :
    ∃ st', run [.recv, .read] st = .ok st' ∧
      st'.log = st.log ++ [.observed st.w.counter.Iteration] := by
  simp [run, step, Recv, readIteration, Chan.recv, Outcome.bind, hheld, hbuf]

/-- C2: in every state `st` a started Watcher can reach while it is running
(lifecycle token not cancelled; any iteration, outbound slot empty or occupied),
with the caller not already inside `ResetCounter`:
the call can run to its return at once; and however the steps `mid` of the
other goroutines (none of them a cancellation) interleave with the call, when it
returns the iteration is 0 and the outbound slot holds the counter pointer, so
a waiting consumer receives and reads iteration 0; and as long as no signal is
processed afterwards (`later` has no `loopSignal` step) the iteration stays 0
and every iteration the consumer reads is 0. -/
theorem reset_makes_next_observation_zero (id : String) (tr : List Action) (st : State)
    (hreach : run tr (started id) = .ok st) (hrun : st.w.ctxDone = false)
    (hidle : st.resetter = .idle) :
    (∃ pick st1, run [.resetLock, .resetSelect pick] st = .ok st1) ∧
    ∀ (mid : List Action) (pick : ResetCase) (st1 : State), Action.cancel ∉ mid →
      run (.resetLock :: mid ++ [.resetSelect pick]) st = .ok st1 →
      st1.w.counter.Iteration = 0 ∧ st1.w.outCh.buf = [.counter] ∧
      (st1.held = none →
        ∃ st2, run [.recv, .read] st1 = .ok st2 ∧ st2.log = st1.log ++ [.observed 0]) ∧
      ∀ (later : List Action) (st2 : State), Action.loopSignal ∉ later →
        run later st1 = .ok st2 →
        st2.w.counter.Iteration = 0 ∧
          ∃ new, st2.log = st1.log ++ new ∧ ∀ n ∈ observations new, n = 0 := by
  have hinv : Inv st := Inv_run tr _ st (Inv_started id) hreach
  have hlock : st.w.counterLock = false := by
    cases hl : st.w.counterLock with
    | false => rfl
    | true => rw [hinv.lock.mp hl] at hidle; cases hidle
  have hmain : ∀ (mid : List Action) (pick : ResetCase) (st1 : State), Action.cancel ∉ mid →
      run (.resetLock :: mid ++ [.resetSelect pick]) st = .ok st1 →
      st1.w.counter.Iteration = 0 ∧ st1.w.outCh.buf = [.counter] := by
    intro mid pick st1 hmid hs
    rw [List.cons_append] at hs
    simp only [run, bind_ok_iff] at hs
    obtain ⟨sa, hsa, hs⟩ := hs
    rw [run_append, bind_ok_iff] at hs
    obtain ⟨sb, hsb, hs⟩ := hs
    rw [run_singleton] at hs
    have hinvb : Inv sb := Inv_run mid sa sb (Inv_step _ st sa hinv hsa) hsb
    have hrunb : sb.w.ctxDone = false := by
      rw [run_ctxDone mid sa sb hmid hsb, step_ctxDone _ st sa (by decide) hsa, hrun]
    obtain ⟨hz, hb, -⟩ := ResetCounter_select_running pick sb st1 hinvb hrunb hs
    exact ⟨hz, hb⟩
  refine ⟨?_, ?_⟩
  · by_cases hroom : st.w.outCh.sendReady = true
    · have hcl : st.w.outCh.closed = false := by
        cases hc : st.w.outCh.closed with
        | false => rfl
        | true => rw [hinv.closedOut hc] at hrun; cases hrun
      have hlen : st.w.outCh.buf.length < st.w.outCh.cap := by
        simpa [Chan.sendReady, hcl] using hroom
      refine ⟨.outCh, ?_⟩
      simp [run, step, ResetCounter_lock, ResetCounter_select, Chan.send, Outcome.bind,
        hidle, hlock, hcl, hlen]
    · refine ⟨.dflt, ?_⟩
      simp [run, step, ResetCounter_lock, ResetCounter_select, Outcome.bind,
        hidle, hlock, hroom, hrun]
  · intro mid pick st1 hmid hs
    obtain ⟨hz, hb⟩ := hmain mid pick st1 hmid hs
    refine ⟨hz, hb, ?_, ?_⟩
    · intro hheld
      obtain ⟨st2, h1, h2⟩ := run_recv_read st1 hheld hb
      exact ⟨st2, h1, by rw [h2, hz]⟩
    · intro later st2 hlater hs2
      exact run_stays_zero later st1 st2 hlater hs2 hz

theorem reset_makes_next_observation_zero_witness :
    run publishTwice (started "w") = .ok (withPending (atIteration "w" 2 [.observed 1])) ∧
    (withPending (atIteration "w" 2 [.observed 1])).w.ctxDone = false ∧
    (withPending (atIteration "w" 2 [.observed 1])).resetter = .idle ∧
    ∃ pick st1, run [.resetLock, .resetSelect pick]
      (withPending (atIteration "w" 2 [.observed 1])) = .ok st1 :=
  ⟨by decide, by decide, by decide,
    (reset_makes_next_observation_zero "w" publishTwice
      (withPending (atIteration "w" 2 [.observed 1])) (by decide) (by decide) (by decide)).1⟩

/-! ## Bursts of sends -/

theorem run_undeliveredSend (id : String) (n : Int) (log : List LogEntry) (str : String)
    (hstr : str ≠ "") (h1 : -9223372036854775808 ≤ n + 1) (h2 : n + 1 < 9223372036854775808) :
    run (undeliveredSend str) (withPending (atIteration id n log))
      = .ok (withPending (atIteration id (n + 1) log)) := by
  simp [undeliveredSend, run, step, withPending, atIteration, started, State.init, New,
    Chan.make, Watcher.Send, Chan.send, Outcome.bind, mainLoop_select, Chan.recv,
    mainLoop_signal, mainLoop_publish, tickFire, hstr, wrapInt64_eq_self _ h1 h2]

theorem run_undeliveredSends (id : String) (log : List LogEntry) (sigs : List String)
    (hne : ∀ s ∈ sigs, s ≠ "") :
    ∀ n : Int, -9223372036854775808 ≤ n → n + sigs.length < 9223372036854775808 →
      run (sigs.flatMap undeliveredSend) (withPending (atIteration id n log))
        = .ok (withPending (atIteration id (n + sigs.length) log)) := by
  induction sigs with
  | nil => intro n _ _; simp [run]
  | cons s rest ih =>
    intro n h0 hlt
    have hs : s ≠ "" := hne s (List.mem_cons_self _ _)
    have hrest : ∀ t ∈ rest, t ≠ "" := fun t ht => hne t (List.mem_cons_of_mem _ ht)
    simp only [List.length_cons, Nat.cast_add, Nat.cast_one] at hlt
    rw [List.flatMap_cons, run_append, run_undeliveredSend id n log s hs (by omega) (by omega)]
    simp only [Outcome.bind]
    rw [ih hrest (n + 1) (by omega) (by omega)]
    congr 3
    simp only [List.length_cons, Nat.cast_add, Nat.cast_one]
    omega

theorem run_first_of_burst (id : String) (n : Int) (log : List LogEntry) (str : String)
    (hstr : str ≠ "") (h1 : -9223372036854775808 ≤ n + 1) (h2 : n + 1 < 9223372036854775808) :
    run [.send str .inCh, .loopSelect .inCh, .loopSignal, .loopPublish .outCh]
        (atIteration id n log)
      = .ok (withPending (atIteration id (n + 1) log)) := by
  simp [run, step, withPending, atIteration, started, State.init, New,
    Chan.make, Watcher.Send, Chan.send, Outcome.bind, mainLoop_select, Chan.recv,
    mainLoop_signal, mainLoop_publish, hstr, wrapInt64_eq_self _ h1 h2]

theorem run_burst (id : String) (n : Int) (log : List LogEntry) (s : String)
    (rest : List String) (hne : ∀ t ∈ s :: rest, t ≠ "") (h0 : -9223372036854775808 ≤ n)
    (hlt : n + (s :: rest).length < 9223372036854775808) :
    run (burst (s :: rest)) (atIteration id n log)
      = .ok (withPending (atIteration id (n + (s :: rest).length) log)) := by
  have hs : s ≠ "" := hne s (List.mem_cons_self _ _)
  have hrest : ∀ t ∈ rest, t ≠ "" := fun t ht => hne t (List.mem_cons_of_mem _ ht)
  simp only [List.length_cons, Nat.cast_add, Nat.cast_one] at hlt ⊢
  rw [burst, run_append, run_first_of_burst id n log s hs (by omega) (by omega)]
  simp only [Outcome.bind]
  rw [run_undeliveredSends id log rest hrest (n + 1) (by omega) (by omega)]
  congr 3
  omega

theorem burst_schedule_runs (id : String) (n : Int) (log : List LogEntry)
    (sigs : List String) (hne : ∀ s ∈ sigs, s ≠ "") (h0 : -9223372036854775808 ≤ n)
    (hlt : n + sigs.length < 9223372036854775808) :
    (∃ st, run (burst sigs) (atIteration id n log) = .ok st ∧
      st.w.counter.Iteration = n + sigs.length ∧
      st.loop = .select ∧ st.w.inCh.buf = [] ∧
      (sigs ≠ [] →
        ∃ st', run [.recv, .read] st = .ok st' ∧
          st'.log = log ++ [.observed (n + sigs.length)] ∧ step .recv st' = .stuck)) ∧
    ∃ st, run (sigs.flatMap undeliveredSend) (withPending (atIteration id n log)) = .ok st ∧
      st.w.counter.Iteration = n + sigs.length ∧
      st.loop = .select ∧ st.w.inCh.buf = [] ∧ st.w.outCh.buf = [.counter] := by
  refine ⟨?_, _, run_undeliveredSends id log sigs hne n h0 hlt, rfl, rfl, rfl, rfl⟩
  cases sigs with
  | nil =>
    refine ⟨atIteration id n log, rfl, ?_, rfl, rfl, fun h => absurd rfl h⟩
    simp [atIteration]
  | cons s rest =>
    refine ⟨_, run_burst id n log s rest hne h0 hlt, rfl, rfl, rfl, fun _ => ?_⟩
    simp [run, step, withPending, atIteration, started, State.init, New, Chan.make,
      Outcome.bind, Recv, readIteration, Chan.recv]

/-- C3 (as stated) fails: of two Send calls made before the loop runs, the
second finds the inbound slot occupied, can take only the `default` case and
changes nothing; once the loop has processed the one queued signal the Watcher
is quiescent (inbound slot empty, loop back at its `select`) with iteration
1, not 0 + 2. Likewise an empty signal is accepted and taken by the loop
without an increment (iteration 0, not 0 + 1); and on a running Watcher whose
loop has already taken a signal, one further accepted Send ends at iteration
2, not 0 + 1. -/
theorem second_send_of_a_burst_is_dropped :
    (run [.send "a" .inCh, .send "b" .inCh] (started "w")).map (fun s => s.w.inCh.buf)
      = .stuck ∧
    (run [.send "a" .inCh, .send "b" .done] (started "w")).map (fun s => s.w.inCh.buf)
      = .stuck ∧
    (run [.send "a" .inCh, .send "b" .dflt] (started "w")).map (fun s => s.w.inCh.buf)
      = .ok ["a"] ∧
    (run [.send "a" .inCh, .send "b" .dflt, .loopSelect .inCh, .loopSignal, .loopPublish .outCh]
        (started "w")).map (fun s => (s.w.counter.Iteration, s.w.inCh.buf, s.loop))
      = .ok (1, [], .select) ∧
    (run [.send "" .inCh, .loopSelect .inCh, .loopSignal]
        (started "w")).map (fun s => (s.w.counter.Iteration, s.w.inCh.buf, s.loop))
      = .ok (0, [], .select) ∧
    (run [.send "a" .inCh, .loopSelect .inCh]
        (started "w")).map (fun s => (s.w.counter.Iteration, s.w.inCh.buf, s.loop))
      = .ok (0, [], .got "a") ∧
    (run ([.send "a" .inCh, .loopSelect .inCh] ++
          [.send "b" .inCh, .loopSignal, .loopPublish .outCh, .loopSelect .inCh, .loopSignal,
            .tickFire, .loopPublish .tick])
        (started "w")).map (fun s => (s.w.counter.Iteration, s.w.inCh.buf, s.loop))
      = .ok (2, [], .select) := by
  refine ⟨by decide, by decide, by decide, by decide, by decide, by decide, by decide⟩

/-! ## Send -/

theorem Send_never_blocks (str : String) (w : Watcher) :
    ∃ pick, w.Send str pick ≠ .stuck := by
  by_cases h : (w.inCh.sendReady || w.ctxDone) = true
  · by_cases hd : w.ctxDone = true
    · exact ⟨.done, by simp [Watcher.Send, hd]⟩
    · refine ⟨.inCh, ?_⟩
      have hr : w.inCh.sendReady = true := by simpa [hd] using h
      unfold Chan.sendReady at hr
      unfold Watcher.Send Chan.send
      by_cases hc : w.inCh.closed = true
      · simp [hc, Outcome.bind]
      · have hl : w.inCh.buf.length < w.inCh.cap := by simpa [hc] using hr
        simp [hc, hl, Outcome.bind]
  · exact ⟨.dflt, by simp [Watcher.Send, h]⟩

theorem Send_panics_only_when_closed (str : String) (pick : SendCase) (w : Watcher)
    (msg : String) (h : w.Send str pick = .panic msg) : w.inCh.closed = true := by
  unfold Watcher.Send at h
  cases pick
  · simp only [Chan.send] at h
    by_cases hc : w.inCh.closed = true
    · exact hc
    · by_cases hl : w.inCh.buf.length < w.inCh.cap
      · simp [hc, hl, Outcome.bind] at h
      · simp [hc, hl, Outcome.bind] at h
  · simp only at h
    split at h <;> cases h
  · simp only at h
    split at h <;> cases h

/-- C4: after `Stop` has completed (token cancelled, loop exited, both slots
closed) the `select` of `Send` has two cases that can proceed, the send on the
closed channel `inCh` and `<-w.ctx.Done()`; when Go picks the first, `Send`
panics with "send on closed channel"; when it picks the second, `Send`
returns. -/
theorem send_after_stop_can_panic :
    (run stopSchedule (started "w")).map
        (fun s => (s.w.ctxDone, s.w.inCh.closed, s.w.outCh.closed, s.loop))
      = .ok (true, true, true, .exited) ∧
    run (stopSchedule ++ [.send "x" .inCh]) (started "w") = .panic "send on closed channel" ∧
    (run (stopSchedule ++ [.send "x" .done]) (started "w")).map (fun s => s.loop)
      = .ok .exited ∧
    run (stopSchedule ++ [.send "x" .dflt]) (started "w") = .stuck := by
  refine ⟨by decide, by decide, by decide, by decide⟩

/-- C5: in every state a started Watcher can reach while it is running
(lifecycle token not cancelled) and in which the inbound slot holds a signal
`s0`, `Send` of any further signal returns at once through its `default` case,
the only one it can take, and leaves the whole state as it was: the inbound slot
still holds exactly `s0`, counter and outbound slot are untouched. And in no
reachable state does the inbound slot hold more than one signal. -/
theorem send_on_occupied_slot_is_dropped (id : String) (tr : List Action) (st : State)
    (s0 str : String) (hreach : run tr (started id) = .ok st)
    (hrun : st.w.ctxDone = false) (hfull : st.w.inCh.buf = [s0]) :
    step (.send str .dflt) st = .ok st ∧
    step (.send str .inCh) st = .stuck ∧
    step (.send str .done) st = .stuck ∧
    (∀ pick st', step (.send str pick) st = .ok st' →
      st' = st ∧ st'.w.inCh.buf = [s0] ∧ st'.w.counter = st.w.counter ∧
        st'.w.outCh = st.w.outCh) ∧
    ∀ tr' st', run tr' (started id) = .ok st' → st'.w.inCh.buf.length ≤ 1 := by
  have hinv : Inv st := Inv_run tr _ st (Inv_started id) hreach
  have hcl : st.w.inCh.closed = false := by
    cases hc : st.w.inCh.closed with
    | false => rfl
    | true => rw [hinv.closedIn hc] at hrun; cases hrun
  have hcap := hinv.inCap
  have h1 : step (.send str .dflt) st = .ok st := by
    simp [step, Watcher.Send, Chan.sendReady, Outcome.bind, hcl, hrun, hfull, hcap]
  have h2 : step (.send str .inCh) st = .stuck := by
    simp [step, Watcher.Send, Chan.send, Outcome.bind, hcl, hfull, hcap]
  have h3 : step (.send str .done) st = .stuck := by
    simp [step, Watcher.Send, Outcome.bind, hrun]
  refine ⟨h1, h2, h3, ?_, ?_⟩
  · intro pick st' hs
    cases pick
    · rw [h2] at hs; cases hs
    · rw [h3] at hs; cases hs
    · rw [h1] at hs
      cases ok_inj hs
      exact ⟨rfl, hfull, rfl, rfl⟩
  · intro tr' st' hs
    exact (Inv_run tr' _ st' (Inv_started id) hs).inLen

theorem send_on_occupied_slot_is_dropped_witness :
    run [.send "a" .inCh] (started "w") =
      .ok { started "w" with
        w := { (started "w").w with inCh := { buf := ["a"], cap := 1, closed := false } } } ∧
    step (.send "b" .dflt)
        { started "w" with
          w := { (started "w").w with inCh := { buf := ["a"], cap := 1, closed := false } } } =
      .ok { started "w" with
        w := { (started "w").w with inCh := { buf := ["a"], cap := 1, closed := false } } } :=
  ⟨by decide,
    (send_on_occupied_slot_is_dropped "w" [.send "a" .inCh]
      { started "w" with
        w := { (started "w").w with inCh := { buf := ["a"], cap := 1, closed := false } } }
      "a" "b" (by decide) (by decide) (by decide)).1⟩

/-! ## The increment -/

/-- C6 (as amended): for every non-empty signal the loop has taken from its
inbound slot (counter unlocked, iteration below the largest `int`), processing
it increases the iteration by exactly 1 and brings the loop to its publish
attempt; however that attempt ends (published, given up on a tick, or left on
cancellation) the iteration is still the old one plus 1; and each of the three
endings can be taken when its case is ready. -/
theorem nonempty_signal_increments_once (st : State) (str : String)
    (hgot : st.loop = .got str) (hne : str ≠ "") (hlock : st.w.counterLock = false)
    (hmin : -9223372036854775808 ≤ st.w.counter.Iteration)
    (hmax : st.w.counter.Iteration < 9223372036854775807) :
    ∃ st1, step .loopSignal st = .ok st1 ∧
      st1.w.counter.Iteration = st.w.counter.Iteration + 1 ∧ st1.loop = .publish ∧
      (∀ pick st2, step (.loopPublish pick) st1 = .ok st2 →
        st2.w.counter.Iteration = st.w.counter.Iteration + 1) ∧
      (st.w.outCh.closed = false → st.w.outCh.buf.length < st.w.outCh.cap →
        ∃ st2, step (.loopPublish .outCh) st1 = .ok st2 ∧ st2.loop = .select) ∧
      (st.tickerC = true → ∃ st2, step (.loopPublish .tick) st1 = .ok st2 ∧ st2.loop = .select) ∧
      (st.w.ctxDone = true →
        ∃ st2, step (.loopPublish .done) st1 = .ok st2 ∧ st2.loop = .closeIn) := by
  have hw : wrapInt64 (st.w.counter.Iteration + 1) = st.w.counter.Iteration + 1 :=
    wrapInt64_eq_self _ (by omega) (by omega)
  refine ⟨_, by simp only [step, mainLoop_signal, hgot, hne, hlock]; rfl, hw, rfl, ?_, ?_, ?_, ?_⟩
  · intro pick st2 hs
    rcases step_effect _ _ _ hs with ⟨hi, -⟩ | ⟨e, -⟩ | ⟨e, -⟩ | ⟨e, -⟩
    · rw [hi]; exact hw
    · cases e
    · cases e
    · cases e
  · intro hc hl
    simp [step, mainLoop_publish, Chan.send, Outcome.bind, hc, hl]
  · intro ht
    simp [step, mainLoop_publish, ht]
  · intro hd
    simp [step, mainLoop_publish, hd]

theorem nonempty_signal_increments_once_witness :
    ∃ st1, step .loopSignal { withPending (atIteration "w" 7 []) with loop := .got "tick" }
        = .ok st1 ∧
      st1.w.counter.Iteration = 7 + 1 ∧ st1.loop = .publish :=
  have h := nonempty_signal_increments_once
    { withPending (atIteration "w" 7 []) with loop := .got "tick" } "tick"
    (by decide) (by decide) (by decide) (by decide) (by decide)
  h.elim fun st1 hst1 => ⟨st1, hst1.1, hst1.2.1, hst1.2.2.1⟩

/-- C6 (as stated) fails for the empty signal: after one delivered signal
(iteration 1) the loop takes `""` from the inbound slot and goes back to its
`select` with the iteration still 1. -/
theorem empty_signal_is_taken_without_increment :
    (run (drainedSend "a" ++ [.send "" .inCh, .loopSelect .inCh]) (started "w")).map
        (fun s => (s.loop, s.w.inCh.buf, s.w.counter.Iteration))
      = .ok (.got "", [], 1) ∧
    (run (drainedSend "a" ++ [.send "" .inCh, .loopSelect .inCh, .loopSignal])
        (started "w")).map (fun s => (s.loop, s.w.inCh.buf, s.w.counter.Iteration))
      = .ok (.select, [], 1) := by
  refine ⟨by decide, by decide⟩

/-! ## Order of the observed iterations -/

theorem split_snoc {α : Type} (l l1 l2 : List α) (e x : α) (h : l ++ [e] = l1 ++ x :: l2) :
    (∃ l2', l2 = l2' ++ [e] ∧ l = l1 ++ x :: l2') ∨ (l2 = [] ∧ e = x ∧ l = l1) := by
  rcases List.eq_nil_or_concat l2 with h2 | ⟨l2', y, h2⟩
  · subst h2
    have := List.append_inj' h rfl
    exact Or.inr ⟨rfl, (List.cons.inj this.2).1, this.1⟩
  · subst h2
    have h' : l ++ [e] = (l1 ++ x :: l2') ++ [y] := by
      rw [h]; simp only [List.concat_eq_append, List.append_assoc, List.cons_append]
    have := List.append_inj' h' rfl
    refine Or.inl ⟨l2', ?_, this.1⟩
    rw [List.concat_eq_append, (List.cons.inj this.2).1]

theorem LogBelow_mono (log : List LogEntry) (n m : Int) (h : LogBelow log n) (hnm : n ≤ m) :
    LogBelow log m := by
  intro l1 l2 a e
  rcases h l1 l2 a e with h' | h'
  · exact Or.inl (le_trans h' hnm)
  · exact Or.inr h'

theorem LogBelow_snoc_reset (log : List LogEntry) (n : Int) :
    LogBelow (log ++ [.reset]) n := by
  intro l1 l2 a e
  rcases split_snoc log l1 l2 _ _ e with ⟨l2', rfl, -⟩ | ⟨-, h, -⟩
  · exact Or.inr (List.mem_append_right _ (List.mem_singleton_self _))
  · cases h

theorem LogBelow_snoc_observed (log : List LogEntry) (n : Int) (h : LogBelow log n) :
    LogBelow (log ++ [.observed n]) n := by
  intro l1 l2 a e
  rcases split_snoc log l1 l2 _ _ e with ⟨l2', rfl, hl⟩ | ⟨-, h', -⟩
  · rcases h l1 l2' a hl with h' | h'
    · exact Or.inl h'
    · exact Or.inr (List.mem_append_left _ h')
  · cases h'
    exact Or.inl (le_refl _)

theorem DropsOnlyAfterReset_snoc_reset (log : List LogEntry) (h : DropsOnlyAfterReset log) :
    DropsOnlyAfterReset (log ++ [.reset]) := by
  intro l1 l2 l3 a b e hba
  rcases split_snoc log l1 _ _ _ e with ⟨t, ht, hl⟩ | ⟨ht, -, -⟩
  · rcases split_snoc t l2 l3 _ _ ht.symm with ⟨l3', -, ht'⟩ | ⟨-, h', -⟩
    · rw [ht'] at hl
      exact h l1 l2 l3' a b hl hba
    · cases h'
  · exact absurd ht (List.append_ne_nil_of_right_ne_nil _ (List.cons_ne_nil _ _))

theorem DropsOnlyAfterReset_snoc_observed (log : List LogEntry) (n : Int)
    (h : DropsOnlyAfterReset log) (hb : LogBelow log n) :
    DropsOnlyAfterReset (log ++ [.observed n]) := by
  intro l1 l2 l3 a b e hba
  rcases split_snoc log l1 _ _ _ e with ⟨t, ht, hl⟩ | ⟨ht, -, -⟩
  · rcases split_snoc t l2 l3 _ _ ht.symm with ⟨l3', -, ht'⟩ | ⟨-, h', ht'⟩
    · rw [ht'] at hl
      exact h l1 l2 l3' a b hl hba
    · cases h'
      rw [ht'] at hl
      rcases hb l1 l2 a hl with h' | h'
      · omega
      · exact h'
  · exact absurd ht (List.append_ne_nil_of_right_ne_nil _ (List.cons_ne_nil _ _))

theorem order_step (a : Action) (st st' : State) (k : Nat)
    (hk : (k : Int) + 1 < 9223372036854775808)
    (h0 : 0 ≤ st.w.counter.Iteration) (hle : st.w.counter.Iteration ≤ k)
    (hb : LogBelow st.log st.w.counter.Iteration) (hd : DropsOnlyAfterReset st.log)
    (hs : step a st = .ok st') :
    0 ≤ st'.w.counter.Iteration ∧ st'.w.counter.Iteration ≤ (k : Int) + 1 ∧
      LogBelow st'.log st'.w.counter.Iteration ∧ DropsOnlyAfterReset st'.log := by
  rcases step_effect a st st' hs with ⟨hi, hl⟩ | ⟨-, -, hi, hl⟩ | ⟨-, hi, hl⟩ | ⟨-, hi, hl⟩
  · rw [hi, hl]
    exact ⟨h0, by omega, hb, hd⟩
  · rw [wrapInt64_eq_self _ (by omega) (by omega)] at hi
    rw [hi, hl]
    exact ⟨by omega, by omega, LogBelow_mono _ _ _ hb (by omega), hd⟩
  · rw [hi, hl]
    exact ⟨le_refl 0, by omega, LogBelow_snoc_reset _ _, DropsOnlyAfterReset_snoc_reset _ hd⟩
  · rw [hi, hl]
    exact ⟨h0, by omega, LogBelow_snoc_observed _ _ hb,
      DropsOnlyAfterReset_snoc_observed _ _ hd hb⟩

theorem order_run (tr : List Action) :
    ∀ (st st' : State) (k : Nat), (k : Int) + tr.length < 9223372036854775808 →
      0 ≤ st.w.counter.Iteration → st.w.counter.Iteration ≤ k →
      LogBelow st.log st.w.counter.Iteration → DropsOnlyAfterReset st.log →
      run tr st = .ok st' →
      0 ≤ st'.w.counter.Iteration ∧ DropsOnlyAfterReset st'.log := by
  induction tr with
  | nil =>
    intro st st' k _ h0 _ _ hd hs
    cases ok_inj hs
    exact ⟨h0, hd⟩
  | cons a rest ih =>
    intro st st' k hk h0 hle hb hd hs
    simp only [run, bind_ok_iff] at hs
    obtain ⟨st1, h1, h2⟩ := hs
    simp only [List.length_cons, Nat.cast_add, Nat.cast_one] at hk
    obtain ⟨h0', hle', hb', hd'⟩ := order_step a st st1 k (by omega) h0 hle hb hd h1
    exact ih st1 st' (k + 1) (by push_cast; omega) h0' (by push_cast; exact hle') hb' hd' h2

/-- C7: for every interleaving `tr` (shorter than 2^63 steps, so that the
counter stays within the range of `int`) of Send, ResetCounter, loop, timer,
Stop and consumer steps on a freshly started Watcher, the iteration is not
negative, and the iterations read through Recv never go down between resets:
whenever the log holds an observation `a` and later an observation `b` with
`b < a`, a reset is logged between the two. -/
theorem iteration_nonneg_and_drops_only_after_reset (id : String) (tr : List Action)
    (st : State) (hlen : tr.length < 9223372036854775808)
    (hreach : run tr (started id) = .ok st) :
    0 ≤ st.w.counter.Iteration ∧
    ∀ (l1 l2 l3 : List LogEntry) (a b : Int),
      st.log = l1 ++ .observed a :: (l2 ++ .observed b :: l3) → b < a →
      LogEntry.reset ∈ l2 := by
  have hb : LogBelow (started id).log (started id).w.counter.Iteration := by
    intro l1 l2 a e
    exact absurd e.symm (List.append_ne_nil_of_right_ne_nil _ (List.cons_ne_nil _ _))
  have hd : DropsOnlyAfterReset (started id).log := by
    intro l1 l2 l3 a b e _
    exact absurd e.symm (List.append_ne_nil_of_right_ne_nil _ (List.cons_ne_nil _ _))
  exact order_run tr (started id) st 0 (by push_cast; omega) (le_refl 0) (le_refl _) hb hd hreach

theorem iteration_nonneg_and_drops_only_after_reset_witness :
    twoSendsThenReset.length < 9223372036854775808 ∧
    run twoSendsThenReset (started "w")
      = .ok (atIteration "w" 0 [.observed 1, .observed 2, .reset, .observed 0]) ∧
    0 ≤ (atIteration "w" 0 [.observed 1, .observed 2, .reset, .observed 0]).w.counter.Iteration :=
  ⟨by decide, by decide,
    (iteration_nonneg_and_drops_only_after_reset "w" twoSendsThenReset
      (atIteration "w" 0 [.observed 1, .observed 2, .reset, .observed 0])
      (by decide) (by decide)).1⟩

/-! ## Origin check -/

theorem isValidOrigin_iff (origin : String) :
    isValidOrigin origin = true ↔
      origin = "http://localhost:8080" ∨ origin = "https://localhost:8080" := by
  by_cases h1 : origin = "http://localhost:8080"
  · subst h1; simp [isValidOrigin, allowedOrigins, List.lookup]
  · by_cases h2 : origin = "https://localhost:8080"
    · subst h2; simp [isValidOrigin, allowedOrigins, List.lookup]
    · have e1 : (origin == "http://localhost:8080") = false := by simpa using h1
      have e2 : (origin == "https://localhost:8080") = false := by simpa using h2
      simp [isValidOrigin, allowedOrigins, List.lookup, h1, h2, e1, e2]

/-- C8: `isValidOrigin` is true exactly for the two origins of the allow-list;
and for a request whose origin is not one of them, `handlerWebSocket` calls
`s.error` with status 403, runs its deferred `cancel` and returns: nothing else
happens, in particular no Watcher is created, started or registered. -/
theorem invalid_origin_is_rejected_before_any_watcher (origin : String) (upgradeOk : Bool)
    (inputs : List Delivery) :
    (isValidOrigin origin = true ↔
      origin = "http://localhost:8080" ∨ origin = "https://localhost:8080") ∧
    (¬ (origin = "http://localhost:8080" ∨ origin = "https://localhost:8080") →
      handlerWebSocket origin upgradeOk inputs = ([.error 403, .cancel], true) ∧
      HandlerEvent.watcherNew ∉ (handlerWebSocket origin upgradeOk inputs).1 ∧
      HandlerEvent.watcherStart ∉ (handlerWebSocket origin upgradeOk inputs).1 ∧
      HandlerEvent.addWatcher ∉ (handlerWebSocket origin upgradeOk inputs).1) := by
  refine ⟨isValidOrigin_iff origin, fun h => ?_⟩
  have hv : isValidOrigin origin = false := by
    cases hb : isValidOrigin origin with
    | false => rfl
    | true => exact absurd ((isValidOrigin_iff origin).mp hb) h
  have he : handlerWebSocket origin upgradeOk inputs = ([.error 403, .cancel], true) := by
    simp [handlerWebSocket, hv, returning, StatusForbidden]
  rw [he]
  exact ⟨rfl, by decide, by decide, by decide⟩

theorem invalid_origin_is_rejected_before_any_watcher_witness :
    ¬ ("http://evil.example" = "http://localhost:8080" ∨
        "http://evil.example" = "https://localhost:8080") ∧
    handlerWebSocket "http://evil.example" true [.counter 1 "x" true .ok, .ctxDone]
      = ([.error 403, .cancel], true) :=
  ⟨by decide,
    ((invalid_origin_is_rejected_before_any_watcher "http://evil.example" true
      [.counter 1 "x" true .ok, .ctxDone]).2 (by decide)).1⟩

/-! ## Stats -/

theorem getStats_eq_sessions (sm : statsManager) (id : String) :
    sm.getStats id = sm.sessions id := by
  unfold statsManager.getStats
  cases sm.sessions id <;> rfl

theorem incrementsSinceRemoval_snoc (id : String) (ops : List StatsOp) (op : StatsOp) :
    incrementsSinceRemoval id (ops ++ [op]) =
      match op with
      | .increment k => if k = id then incrementsSinceRemoval id ops + 1
          else incrementsSinceRemoval id ops
      | .removeStats k => if k = id then 0 else incrementsSinceRemoval id ops := by
  simp only [incrementsSinceRemoval, List.foldl_append, List.foldl_cons, List.foldl_nil]

theorem applyOps_snoc (sm : statsManager) (ops : List StatsOp) (op : StatsOp) :
    applyOps sm (ops ++ [op]) = StatsOp.apply (applyOps sm ops) op := by
  simp only [applyOps, List.foldl_append, List.foldl_cons, List.foldl_nil]

theorem incrementsSinceRemoval_le (id : String) (ops : List StatsOp) :
    incrementsSinceRemoval id ops ≤ ops.length := by
  induction ops using List.reverseRecOn with
  | nil => simp [incrementsSinceRemoval]
  | append_singleton ops op ih =>
    rw [incrementsSinceRemoval_snoc, List.length_append, List.length_singleton]
    cases op with
    | increment k => simp only; split <;> omega
    | removeStats k => simp only; split <;> omega

theorem sessions_applyOps (id : String) (ops : List StatsOp)
    (hlen : ops.length < 9223372036854775808) :
    (applyOps newStatsManager ops).sessions id =
      if incrementsSinceRemoval id ops = 0 then none
      else some { id := id, sent := incrementsSinceRemoval id ops } := by
  induction ops using List.reverseRecOn with
  | nil => simp [applyOps, newStatsManager, incrementsSinceRemoval]
  | append_singleton ops op ih =>
    rw [List.length_append, List.length_singleton] at hlen
    have ih' := ih (by omega)
    have hle := incrementsSinceRemoval_le id ops
    rw [applyOps_snoc, incrementsSinceRemoval_snoc]
    cases op with
    | increment k =>
      by_cases hk : k = id
      · subst hk
        simp only [StatsOp.apply, statsManager.increment, if_true]
        rw [ih']
        by_cases hc : incrementsSinceRemoval k ops = 0
        · simp [hc]
        · have hw : wrapInt64 ((incrementsSinceRemoval k ops : Int) + 1)
              = (incrementsSinceRemoval k ops : Int) + 1 :=
            wrapInt64_eq_self _ (by omega) (by omega)
          simp [hc, hw]
      · have hk' : ¬ id = k := fun h => hk h.symm
        simp only [StatsOp.apply, statsManager.increment, hk, if_false]
        split <;> simp only [hk', if_false] <;> exact ih'
    | removeStats k =>
      by_cases hk : k = id
      · subst hk
        simp only [StatsOp.apply, statsManager.removeStats, if_true]
        split
        · simp
        · next hnone => simpa using hnone
      · have hk' : ¬ id = k := fun h => hk h.symm
        simp only [StatsOp.apply, statsManager.removeStats, hk, if_false]
        split
        · simp only [hk', if_false]; exact ih'
        · exact ih'

/-- C9: for every sequence `ops` of `increment` and `removeStats` calls (fewer
than 2^63, the range of the `int64` count) on a new `statsManager` and every
`id`, `getStats(id)` is `nil` when `id` was not incremented since its last
removal (or ever), and otherwise the entry of `id` whose `sent` is the number
of `increment(id)` calls since the last `removeStats(id)`; on any manager, a
call for another id leaves `getStats(id)` as it was, and `removeStats(id)` for
an absent `id` changes nothing and logs nothing. -/
theorem getStats_counts_increments_since_removal (ops : List StatsOp) (id : String)
    (hlen : ops.length < 9223372036854775808) :
    (applyOps newStatsManager ops).getStats id =
      (if incrementsSinceRemoval id ops = 0 then none
        else some { id := id, sent := incrementsSinceRemoval id ops }) ∧
    (∀ (sm : statsManager) (other : String), other ≠ id →
      (sm.increment other).getStats id = sm.getStats id ∧
      (sm.removeStats other).1.getStats id = sm.getStats id) ∧
    (∀ sm : statsManager, sm.getStats id = none → sm.removeStats id = (sm, none)) := by
  refine ⟨?_, ?_, ?_⟩
  · rw [getStats_eq_sessions, sessions_applyOps id ops hlen]
  · intro sm other hne
    have hne' : ¬ id = other := fun h => hne h.symm
    constructor
    · rw [getStats_eq_sessions, getStats_eq_sessions]
      unfold statsManager.increment
      split <;> simp only [hne', if_false]
    · rw [getStats_eq_sessions, getStats_eq_sessions]
      unfold statsManager.removeStats
      split
      · simp only [hne', if_false]
      · rfl
  · intro sm hnone
    rw [getStats_eq_sessions] at hnone
    unfold statsManager.removeStats
    rw [hnone]

theorem getStats_counts_increments_since_removal_witness :
    exampleOps.length < 9223372036854775808 ∧
    (applyOps newStatsManager exampleOps).getStats "a" = some { id := "a", sent := 2 } :=
  ⟨by decide,
    (getStats_counts_increments_since_removal exampleOps "a" (by decide)).1.trans (by decide)⟩

/-! ## GenerateHex -/

theorem makeBytes_ok (mem : Nat) (n : Int) (h0 : 0 ≤ n) (h1 : n ≤ maxAlloc) (h2 : n ≤ mem) :
    makeBytes mem n = .ok n.toNat := by
  have ha : ¬ (n < 0 ∨ (maxAlloc : Int) < n) := by omega
  have hb : ¬ (mem : Int) < n := by omega
  simp only [makeBytes, ha, hb, if_false]

theorem length_hexEncode (bytes : List Nat) : (hexEncode bytes).length = 2 * bytes.length := by
  unfold hexEncode
  induction bytes with
  | nil => rfl
  | cons b rest ih =>
    rw [List.flatMap_cons, List.length_append, ih, List.length_cons]
    simp only [hexEncodeByte, List.length_cons, List.length_nil]
    omega

theorem length_randRead (stream : Nat → Nat) (n : Nat) :
    ∃ bytes, randRead (some stream) n = some bytes ∧ bytes.length = n := by
  unfold randRead
  by_cases h : n = 0
  · subst h; exact ⟨[], rfl, rfl⟩
  · simp only [h, if_false]
    exact ⟨_, rfl, by rw [List.length_map, List.length_range]⟩

theorem GenerateHex_two (b : Nat) (mem : Nat) :
    GenerateHex 2 (some fun _ => b) (mem + 2)
      = .ok (String.mk (hexEncodeByte (b % 256)), none) := by
  have hn : Int.tdiv (wrapInt64 3) 2 = 1 := by decide
  have h1 : makeBytes (mem + 2) 1 = .ok 1 :=
    makeBytes_ok _ 1 (by decide) (by decide) (by push_cast; omega)
  have h2 : makeBytes (mem + 2) 2 = .ok 2 :=
    makeBytes_ok _ 2 (by decide) (by decide) (by push_cast; omega)
  simp [GenerateHex, hn, h1, Outcome.bind, randRead, EncodeToString, h2, hexEncode,
    hexEncodeByte]

theorem GenerateHex_one (b : Nat) (mem : Nat) :
    GenerateHex 1 (some fun _ => b) (mem + 2)
      = .ok (String.mk ((hexEncodeByte (b % 256)).take 1), none) := by
  have hn : Int.tdiv (wrapInt64 2) 2 = 1 := by decide
  have h1 : makeBytes (mem + 2) 1 = .ok 1 :=
    makeBytes_ok _ 1 (by decide) (by decide) (by push_cast; omega)
  have h2 : makeBytes (mem + 2) 2 = .ok 2 :=
    makeBytes_ok _ 2 (by decide) (by decide) (by push_cast; omega)
  simp [GenerateHex, hn, h1, Outcome.bind, randRead, EncodeToString, h2, hexEncode,
    hexEncodeByte]

/-- C10: with `length = 2`, a random source that succeeds and delivers the
byte `0xAB`, and memory for the two small buffers, `GenerateHex` returns
`("ab", nil)`: `hex.EncodeToString` writes lower-case digits, so the result does
not match `^[0-9A-F]*$`, the pattern `TestGenerateHex` checks. The same happens
for `length = 1`, and an all-decimal result such as `"12"` does match. -/
theorem GenerateHex_returns_lower_case_digits (mem : Nat) :
    GenerateHex 2 (some fun _ => 171) (mem + 2) = .ok ("ab", none) ∧
    hexPattern "ab" = false ∧
    GenerateHex 1 (some fun _ => 171) (mem + 2) = .ok ("a", none) ∧
    hexPattern "a" = false ∧
    GenerateHex 2 (some fun _ => 18) (mem + 2) = .ok ("12", none) ∧
    hexPattern "12" = true := by
  refine ⟨?_, by decide, ?_, by decide, ?_, by decide⟩
  · rw [GenerateHex_two]; decide
  · rw [GenerateHex_one]; decide
  · rw [GenerateHex_two]; decide

theorem maxAlloc_cast : (maxAlloc : Int) = 281474976710656 := by
  decide

/-- C11 (as amended): for every `length >= 0` whose `2*((length+1)/2)` hex
digits fit in one allocation (at most the runtime's `maxAlloc` and at most the
memory the runtime can obtain; zero, odd and even lengths alike) and every
outcome of the random source that succeeds, `GenerateHex(length)` returns a
`nil` error and a string of exactly `length` characters. -/
theorem GenerateHex_has_requested_length (length : Int) (stream : Nat → Nat) (mem : Nat)
    (h0 : 0 ≤ length) (hmax : 2 * ((length + 1) / 2) ≤ (maxAlloc : Int))
    (hmem : 2 * ((length + 1) / 2) ≤ (mem : Int)) :
    ∃ s, GenerateHex length (some stream) mem = .ok (s, none) ∧ (s.length : Int) = length := by
  have hA := maxAlloc_cast
  have hw : wrapInt64 (length + 1) = length + 1 := wrapInt64_eq_self _ (by omega) (by omega)
  have hd : Int.tdiv (length + 1) 2 = (length + 1) / 2 :=
    Int.tdiv_eq_ediv (by omega) (by decide)
  have hm1 : makeBytes mem ((length + 1) / 2) = .ok ((length + 1) / 2).toNat :=
    makeBytes_ok _ _ (by omega) (by omega) (by omega)
  obtain ⟨bytes, hr, hlen⟩ := length_randRead stream ((length + 1) / 2).toNat
  have hm2 : makeBytes mem (2 * (bytes.length : Int)) = .ok (2 * (bytes.length : Int)).toNat :=
    makeBytes_ok _ _ (by omega) (by omega) (by omega)
  have hl : (String.mk (hexEncode bytes)).length = 2 * bytes.length := by
    rw [String.length_mk, length_hexEncode]
  unfold GenerateHex
  simp only [hw, hd, hm1, Outcome.bind, hr, EncodeToString, hm2]
  by_cases hgt : ((String.mk (hexEncode bytes)).length : Int) > length
  · have hneg : ¬ length < 0 := by omega
    simp only [hgt, if_true, hneg, if_false]
    refine ⟨_, rfl, ?_⟩
    rw [String.length_mk, List.length_take]
    have : (String.mk (hexEncode bytes)).toList.length = (String.mk (hexEncode bytes)).length :=
      rfl
    rw [this]
    omega
  · simp only [hgt, if_false]
    refine ⟨_, rfl, ?_⟩
    omega

theorem GenerateHex_has_requested_length_witness :
    (0 : Int) ≤ 5 ∧ 2 * (((5 : Int) + 1) / 2) ≤ (maxAlloc : Int) ∧
    2 * (((5 : Int) + 1) / 2) ≤ ((64 : Nat) : Int) ∧
    ∃ s, GenerateHex 5 (some fun i => 171 + i) 64 = .ok (s, none) ∧ (s.length : Int) = 5 :=
  ⟨by decide, by decide, by decide,
    GenerateHex_has_requested_length 5 (fun i => 171 + i) 64 (by decide) (by decide)
      (by decide)⟩

/-- C11 (as stated) fails for lengths whose buffers cannot be allocated: with
`length = 1<<50` the byte slice of `1<<49` bytes exceeds `maxAlloc` and `make`
panics, however much memory there is; with `length` the largest `int`,
`length+1` wraps to a negative size and `make` panics as well; and with
`length = 1024` on a runtime that can obtain no more than 100 bytes the program
ends with "out of memory". In none of these does `GenerateHex` return a string
of `length` characters. -/
theorem GenerateHex_fails_when_the_buffer_cannot_be_allocated :
    GenerateHex 1125899906842624 (some fun _ => 0) 4611686018427387904
      = .panic "makeslice: len out of range" ∧
    GenerateHex 9223372036854775807 (some fun _ => 0) 4611686018427387904
      = .panic "makeslice: len out of range" ∧
    GenerateHex 1024 (some fun _ => 0) 100 = .panic "fatal error: runtime: out of memory" := by
  refine ⟨by decide, by decide, by decide⟩

/-! ## Counting signals and increments -/

theorem step_counts (a : Action) (st st' : State) (hs : step a st = .ok st')
    (ha : a ≠ .resetLock) (hlo : -9223372036854775808 ≤ st.w.counter.Iteration)
    (hhi : st.w.counter.Iteration + pendingSignals st < 9223372036854775808) :
    st'.w.counter.Iteration + pendingSignals st'
      = st.w.counter.Iteration + pendingSignals st + accepted a ∧
    st.w.counter.Iteration ≤ st'.w.counter.Iteration ∧
    (isReset a = false →
      st.w.counter.Iteration - inFlight st + (if a = .read then 1 else 0)
        ≤ st'.w.counter.Iteration - inFlight st') := by
  obtain ⟨⟨id, ⟨ib, ic, icl⟩, ⟨ob, oc, ocl⟩, ⟨it, v⟩, lk, cd, rn⟩, lp, ton, tc, rs, hd, lg⟩ := st
  cases a with
  | start =>
    simp only [step, Start] at hs
    split at hs
    · cases ok_inj hs
      simp [pendingSignals, inFlight, accepted]
    · cases hs
  | send str pick =>
    simp only [step, bind_ok_iff] at hs
    obtain ⟨w, hw, hst⟩ := hs
    cases ok_inj hst
    unfold Watcher.Send at hw
    cases pick
    · simp only [bind_ok_iff, Chan.send_ok_iff] at hw
      obtain ⟨c, ⟨-, -, rfl⟩, hw⟩ := hw
      cases ok_inj hw
      by_cases hstr : str = ""
      · simp [pendingSignals, inFlight, accepted, isReset, hstr]
      · simp [pendingSignals, inFlight, accepted, isReset, hstr]
        all_goals omega
    · simp only at hw
      split at hw
      · cases ok_inj hw
        simp [pendingSignals, inFlight, accepted, isReset]
      · cases hw
    · simp only at hw
      split at hw
      · cases hw
      · cases ok_inj hw
        simp [pendingSignals, inFlight, accepted, isReset]
  | cancel =>
    cases ok_inj hs
    simp [pendingSignals, inFlight, accepted, isReset]
  | stopWait =>
    simp only [step, Stop_wait] at hs
    split at hs
    · cases ok_inj hs
      simp [pendingSignals, inFlight, accepted, isReset]
    · cases hs
  | tickFire =>
    simp only [step, tickFire] at hs
    split at hs
    · cases ok_inj hs
      simp [pendingSignals, inFlight, accepted, isReset]
    · cases hs
  | loopSelect pick =>
    simp only [step, mainLoop_select] at hs
    split at hs
    · cases pick
      · simp only at hs
        split at hs
        · cases ok_inj hs
          simp [pendingSignals, inFlight, accepted, isReset]
        · cases hs
      · simp only [bind_ok_iff, Chan.recv_ok_iff] at hs
        obtain ⟨r, (⟨x, rest, hb, rfl⟩ | ⟨hb, hc, rfl⟩), hw⟩ := hs
        · cases ok_inj hw
          subst hb
          by_cases hx : x = ""
          · simp [pendingSignals, inFlight, accepted, isReset, hx]
          · simp [pendingSignals, inFlight, accepted, isReset, hx]
        · cases ok_inj hw
          simp [pendingSignals, inFlight, accepted, isReset]
      · cases hs
      · cases hs
    · cases hs
  | loopSignal =>
    simp only [step, mainLoop_signal] at hs
    split at hs
    · next str =>
      split at hs
      · next hstr =>
        cases ok_inj hs
        simp [pendingSignals, inFlight, accepted, isReset, hstr]
      · next hstr =>
        split at hs
        · cases hs
        · cases ok_inj hs
          have hp : pendingSignals
              { w := { id := id, inCh := ⟨ib, ic, icl⟩, outCh := ⟨ob, oc, ocl⟩,
                       counter := ⟨it, v⟩, counterLock := lk, ctxDone := cd, running := rn },
                loop := .got str, tickerOn := ton, tickerC := tc, resetter := rs, held := hd,
                log := lg }
              = ib.countP (fun s => decide (s ≠ "")) + 1 := by
            simp [pendingSignals, hstr]
          rw [hp] at hhi ⊢
          simp only at hlo hhi
          have hw : wrapInt64 (it + 1) = it + 1 :=
            wrapInt64_eq_self _ (by omega) (by omega)
          simp [pendingSignals, inFlight, accepted, isReset, hw]
          all_goals omega
    · cases hs
  | loopPublish pick =>
    simp only [step, mainLoop_publish] at hs
    split at hs
    · cases pick
      · simp only at hs
        split at hs
        · cases ok_inj hs
          simp [pendingSignals, inFlight, accepted, isReset]
          all_goals omega
        · cases hs
      · cases hs
      · simp only [bind_ok_iff, Chan.send_ok_iff] at hs
        obtain ⟨c, ⟨-, -, rfl⟩, hw⟩ := hs
        cases ok_inj hw
        simp [pendingSignals, inFlight, accepted, isReset]
        all_goals omega
      · simp only at hs
        split at hs
        · cases ok_inj hs
          simp [pendingSignals, inFlight, accepted, isReset]
          all_goals omega
        · cases hs
    · cases hs
  | loopDefer =>
    simp only [step, mainLoop_defer] at hs
    split at hs
    · simp only [bind_ok_iff, Chan.close_ok_iff] at hs
      obtain ⟨c, ⟨-, rfl⟩, hw⟩ := hs
      cases ok_inj hw
      simp [pendingSignals, inFlight, accepted, isReset]
    · simp only [bind_ok_iff, Chan.close_ok_iff] at hs
      obtain ⟨c, ⟨-, rfl⟩, hw⟩ := hs
      cases ok_inj hw
      simp [pendingSignals, inFlight, accepted, isReset]
    · split at hs
      · cases hs
      · cases ok_inj hs
        simp [pendingSignals, inFlight, accepted, isReset]
    · cases hs
  | resetLock => exact absurd rfl ha
  | resetSelect pick =>
    simp only [step, ResetCounter_select] at hs
    split at hs
    · cases pick
      · simp only [bind_ok_iff, Chan.send_ok_iff] at hs
        obtain ⟨c, ⟨-, -, rfl⟩, hw⟩ := hs
        cases ok_inj hw
        simp [pendingSignals, inFlight, accepted, isReset]
      · simp only at hs
        split at hs
        · cases ok_inj hs
          simp [pendingSignals, inFlight, accepted, isReset]
        · cases hs
      · simp only at hs
        split at hs
        · cases hs
        · cases ok_inj hs
          simp [pendingSignals, inFlight, accepted, isReset]
    · cases hs
  | recv =>
    simp only [step, Recv] at hs
    split at hs
    · simp only [bind_ok_iff, Chan.recv_ok_iff] at hs
      obtain ⟨r, (⟨x, rest, hb, rfl⟩ | ⟨hb, hc, rfl⟩), hw⟩ := hs
      · cases ok_inj hw
        subst hb
        cases x
        · simp [pendingSignals, inFlight, accepted, isReset]
        · simp [pendingSignals, inFlight, accepted, isReset]
          all_goals omega
      · cases ok_inj hw
        simp [pendingSignals, inFlight, accepted, isReset]
    · cases hs
  | read =>
    simp only [step, readIteration] at hs
    split at hs
    · cases ok_inj hs
      simp [pendingSignals, inFlight, accepted, isReset]
      all_goals omega
    · cases hs
    · cases hs

theorem run_counts (tr : List Action) :
    ∀ (st st' : State), (∀ a ∈ tr, a ≠ Action.resetLock) →
      -9223372036854775808 ≤ st.w.counter.Iteration →
      st.w.counter.Iteration + pendingSignals st + acceptedCount tr < 9223372036854775808 →
      run tr st = .ok st' →
      st'.w.counter.Iteration + pendingSignals st'
        = st.w.counter.Iteration + pendingSignals st + acceptedCount tr ∧
      st.w.counter.Iteration ≤ st'.w.counter.Iteration := by
  induction tr with
  | nil =>
    intro st st' _ _ _ hs
    cases ok_inj hs
    simp [acceptedCount]
  | cons a rest ih =>
    intro st st' hnr hlo hhi hs
    simp only [run, bind_ok_iff] at hs
    obtain ⟨st1, h1, h2⟩ := hs
    have hc : acceptedCount (a :: rest) = accepted a + acceptedCount rest := by
      simp [acceptedCount]
    rw [hc] at hhi ⊢
    obtain ⟨e1, m1, -⟩ := step_counts a st st1 h1 (hnr a (List.mem_cons_self _ _)) hlo
      (by omega)
    obtain ⟨e2, m2⟩ := ih st1 st' (fun b hb => hnr b (List.mem_cons_of_mem _ hb)) (by omega)
      (by omega) h2
    exact ⟨by omega, by omega⟩

theorem sendCount_cons (a : Action) (rest : List Action) :
    sendCount (a :: rest) = sendCount rest + (if isSend a = true then 1 else 0) := by
  simp only [sendCount, List.countP_cons]

theorem acceptedCount_eq_sendCount (tr : List Action) (hacc : sendsAccepted tr = true) :
    acceptedCount tr = sendCount tr := by
  induction tr with
  | nil => rfl
  | cons a rest ih =>
    simp only [sendsAccepted, List.all_cons, Bool.and_eq_true] at hacc
    have ih' := ih hacc.2
    have hc : acceptedCount (a :: rest) = accepted a + acceptedCount rest := by
      simp [acceptedCount]
    rw [hc, ih', sendCount_cons]
    have ha := hacc.1
    cases a with
    | send str pick =>
      simp only [isSend, Bool.not_true, Bool.false_or, beq_iff_eq] at ha
      simp only [ha, isSend, if_true]
      omega
    | _ => simp [accepted, isSend]

theorem acceptedCount_eq_zero (tr : List Action) (h : ∀ a ∈ tr, isSend a = false) :
    acceptedCount tr = 0 := by
  induction tr with
  | nil => rfl
  | cons a rest ih =>
    have ih' := ih fun b hb => h b (List.mem_cons_of_mem _ hb)
    have ha := h a (List.mem_cons_self _ _)
    have hc : acceptedCount (a :: rest) = accepted a + acceptedCount rest := by
      simp [acceptedCount]
    rw [hc, ih']
    cases a <;> simp [accepted, isSend] at ha ⊢

theorem step_read (st st' : State) (hs : step .read st = .ok st') :
    st'.w.counter.Iteration = st.w.counter.Iteration ∧
      st'.log = st.log ++ [.observed st.w.counter.Iteration] := by
  simp only [step, readIteration] at hs
  split at hs
  · cases ok_inj hs
    exact ⟨rfl, rfl⟩
  · cases hs
  · cases hs

theorem step_log_unchanged (a : Action) (st st' : State) (hs : step a st = .ok st')
    (h1 : a ≠ .resetLock) (h2 : a ≠ .read) : st'.log = st.log := by
  rcases step_effect a st st' hs with ⟨-, hl⟩ | ⟨-, -, -, hl⟩ | ⟨e, -⟩ | ⟨e, -⟩
  · exact hl
  · exact hl
  · exact absurd e h1
  · exact absurd e h2

theorem run_settled (tr : List Action) :
    ∀ (st st' : State), (∀ a ∈ tr, a ≠ Action.resetLock ∧ isSend a = false) →
      pendingSignals st = 0 →
      -9223372036854775808 ≤ st.w.counter.Iteration →
      st.w.counter.Iteration < 9223372036854775808 →
      run tr st = .ok st' →
      st'.w.counter.Iteration = st.w.counter.Iteration ∧ pendingSignals st' = 0 ∧
      ∃ new, st'.log = st.log ++ new ∧
        ∀ n ∈ observations new, n = st.w.counter.Iteration := by
  induction tr with
  | nil =>
    intro st st' _ hp _ _ hs
    cases ok_inj hs
    exact ⟨rfl, hp, [], (List.append_nil _).symm, fun n hn => by cases hn⟩
  | cons a rest ih =>
    intro st st' htr hp hlo hhi hs
    simp only [run, bind_ok_iff] at hs
    obtain ⟨st1, h1, h2⟩ := hs
    obtain ⟨har, has⟩ := htr a (List.mem_cons_self _ _)
    have hacc : accepted a = 0 := by
      cases a <;> simp [accepted, isSend] at has ⊢
    obtain ⟨e1, m1, -⟩ := step_counts a st st1 h1 har hlo (by omega)
    have hit : st1.w.counter.Iteration = st.w.counter.Iteration := by omega
    have hp1 : pendingSignals st1 = 0 := by omega
    obtain ⟨e2, p2, new, hlog, hobs⟩ :=
      ih st1 st' (fun b hb => htr b (List.mem_cons_of_mem _ hb)) hp1 (by omega) (by omega) h2
    rw [hit] at e2 hobs
    refine ⟨e2, p2, ?_⟩
    by_cases hread : a = .read
    · subst hread
      obtain ⟨-, hl⟩ := step_read st st1 h1
      refine ⟨.observed st.w.counter.Iteration :: new, by rw [hlog, hl, List.append_assoc]; rfl,
        ?_⟩
      intro n hn
      have hn' : n = st.w.counter.Iteration ∨ n ∈ observations new := by
        simpa [observations] using hn
      rcases hn' with hn' | hn'
      · exact hn'
      · exact hobs n hn'
    · have hl := step_log_unchanged a st st1 h1 har hread
      exact ⟨new, by rw [hlog, hl], hobs⟩

/-- C3 (as amended): for every Watcher state with no signal waiting to be
processed and every schedule `tr` without a `ResetCounter` in which all `N`
calls of `Send` carry a non-empty signal and are accepted into the inbound slot,
with the iteration plus `N` within the range of `int`: once the Watcher is
quiescent again (no signal waiting), its iteration is the initial one plus `N`,
whether or not any publish succeeded; and whatever the consumer reads after
that, before a further `Send` or `ResetCounter`, is only that final
iteration. -/
theorem accepted_sends_are_all_counted (st0 st : State) (tr : List Action)
    (hquiet0 : pendingSignals st0 = 0)
    (hlo : -9223372036854775808 ≤ st0.w.counter.Iteration)
    (hhi : st0.w.counter.Iteration + sendCount tr < 9223372036854775808)
    (hnoreset : ∀ a ∈ tr, a ≠ Action.resetLock)
    (hacc : sendsAccepted tr = true)
    (hrun : run tr st0 = .ok st) (hquiet : pendingSignals st = 0) :
    st.w.counter.Iteration = st0.w.counter.Iteration + sendCount tr ∧
    ∀ (later : List Action) (st' : State),
      (∀ a ∈ later, a ≠ Action.resetLock ∧ isSend a = false) →
      run later st = .ok st' →
      st'.w.counter.Iteration = st0.w.counter.Iteration + sendCount tr ∧
      ∃ new, st'.log = st.log ++ new ∧
        ∀ n ∈ observations new, n = st0.w.counter.Iteration + sendCount tr := by
  have hc := acceptedCount_eq_sendCount tr hacc
  obtain ⟨e, m⟩ := run_counts tr st0 st hnoreset hlo (by rw [hc]; omega) hrun
  rw [hc] at e
  have hit : st.w.counter.Iteration = st0.w.counter.Iteration + sendCount tr := by omega
  refine ⟨hit, ?_⟩
  intro later st' hlater hs
  obtain ⟨e2, -, new, hlog, hobs⟩ :=
    run_settled later st st' hlater hquiet (by omega) (by omega) hs
  rw [hit] at e2 hobs
  exact ⟨e2, new, hlog, hobs⟩

theorem accepted_sends_are_all_counted_witness :
    pendingSignals (atIteration "w" 4 []) = 0 ∧
    sendsAccepted (burst ["a", "b", "c"]) = true ∧
    run (burst ["a", "b", "c"]) (atIteration "w" 4 [])
      = .ok (withPending (atIteration "w" 7 [])) ∧
    pendingSignals (withPending (atIteration "w" 7 [])) = 0 ∧
    (withPending (atIteration "w" 7 [])).w.counter.Iteration
      = (atIteration "w" 4 []).w.counter.Iteration + sendCount (burst ["a", "b", "c"]) :=
  ⟨by decide, by decide, by decide, by decide,
    (accepted_sends_are_all_counted (atIteration "w" 4 []) (withPending (atIteration "w" 7 []))
      (burst ["a", "b", "c"]) (by decide) (by decide) (by decide) (by decide) (by decide)
      (by decide) (by decide)).1⟩

/-! ## Sends drained before the next one, under every interleaving -/

theorem drainedFrom_other (a : Action) (rest : List Action) (sends reads : Nat)
    (h1 : isSend a = false) (h2 : a ≠ .read) :
    drainedFrom sends reads (a :: rest) = drainedFrom sends reads rest := by
  cases a <;> first | rfl | exact absurd rfl h2 | (simp [isSend] at h1)

theorem observations_snoc (log : List LogEntry) (n : Int) :
    observations (log ++ [.observed n]) = observations log ++ [n] := by
  simp [observations, List.filterMap_append]

theorem drained_run (tr : List Action) :
    ∀ (st st' : State) (sends reads : Nat),
      observations st.log = (List.range' 1 reads).map (fun k : Nat => (k : Int)) →
      reads ≤ sends → sends ≤ reads + 1 →
      st.w.counter.Iteration + pendingSignals st ≤ sends →
      (reads : Int) + inFlight st ≤ st.w.counter.Iteration →
      drainedFrom sends reads tr = true →
      (∀ a ∈ tr, isReset a = false) →
      (sends : Int) + tr.length < 9223372036854775808 →
      run tr st = .ok st' →
      observations st'.log
          = (List.range' 1 (sends + sendCount tr)).map (fun k : Nat => (k : Int)) ∧
        st'.w.counter.Iteration = ((sends + sendCount tr : Nat) : Int) := by
  induction tr with
  | nil =>
    intro st st' sends reads hobs h1 h2 h3 h4 hd _ _ hs
    cases ok_inj hs
    have he : sends = reads := by simpa [drainedFrom] using hd
    subst he
    refine ⟨by simpa [sendCount] using hobs, ?_⟩
    simp only [sendCount, List.countP_nil, Nat.add_zero]
    omega
  | cons a rest ih =>
    intro st st' sends reads hobs h1 h2 h3 h4 hd hnr hlen hs
    simp only [run, bind_ok_iff] at hs
    obtain ⟨st1, hs1, hs2⟩ := hs
    simp only [List.length_cons, Nat.cast_add, Nat.cast_one] at hlen
    have hra : isReset a = false := hnr a (List.mem_cons_self _ _)
    have hnl : a ≠ .resetLock := by
      intro e; rw [e] at hra; cases hra
    have hnr' : ∀ b ∈ rest, isReset b = false := fun b hb => hnr b (List.mem_cons_of_mem _ hb)
    obtain ⟨e1, m1, f1⟩ := step_counts a st st1 hs1 hnl (by omega) (by omega)
    have f1' := f1 hra
    by_cases hsend : isSend a = true
    · obtain ⟨str, pick, rfl⟩ : ∃ str pick, a = .send str pick := by
        cases a <;> first | exact ⟨_, _, rfl⟩ | (simp [isSend] at hsend)
      simp only [drainedFrom, Bool.and_eq_true, beq_iff_eq] at hd
      obtain ⟨he, hd'⟩ := hd
      subst he
      have hl := step_log_unchanged _ st st1 hs1 hnl (by simp)
      have hacc : accepted (.send str pick) ≤ 1 := by
        cases pick <;> simp [accepted]
        split <;> omega
      have hif : (if Action.send str pick = Action.read then (1 : Int) else 0) = 0 := by simp
      rw [hif] at f1'
      have := ih st1 st' (sends + 1) sends (by rw [hl]; exact hobs) (by omega) (by omega)
        (by omega) (by omega) hd' hnr' (by push_cast; omega) hs2
      rw [sendCount_cons]
      simp only [isSend, if_true]
      rw [show sends + (sendCount rest + 1) = sends + 1 + sendCount rest from by omega]
      exact this
    · have hsend' : isSend a = false := by simpa using hsend
      have hacc : accepted a = 0 := by
        cases a <;> simp [accepted, isSend] at hsend' ⊢
      have hsc : sendCount (a :: rest) = sendCount rest := by
        rw [sendCount_cons]; simp [hsend']
      rw [hsc]
      by_cases hread : a = .read
      · subst hread
        obtain ⟨hit, hl⟩ := step_read st st1 hs1
        simp only [drainedFrom] at hd
        simp only [if_true] at f1'
        have hval : st.w.counter.Iteration = ((reads + 1 : Nat) : Int) := by
          push_cast; omega
        have hobs1 : observations st1.log
            = (List.range' 1 (reads + 1)).map (fun k : Nat => (k : Int)) := by
          rw [hl, observations_snoc, hobs, List.range'_1_concat, List.map_append, hval]
          simp only [List.map_cons, List.map_nil, Nat.cast_add, Nat.cast_one]
          congr 2
          omega
        exact ih st1 st' sends (reads + 1) hobs1 (by omega) (by omega) (by omega)
          (by push_cast; omega) hd hnr' (by omega) hs2
      · have hl := step_log_unchanged a st st1 hs1 hnl hread
        rw [drainedFrom_other a rest sends reads hsend' hread] at hd
        have hif : (if a = Action.read then (1 : Int) else 0) = 0 := by simp [hread]
        rw [hif] at f1'
        exact ih st1 st' sends reads (by rw [hl]; exact hobs) h1 h2 (by omega) (by omega)
          hd hnr' (by omega) hs2

theorem drainedFrom_drainedSends (sigs : List String) :
    ∀ k : Nat, drainedFrom k k (sigs.flatMap drainedSend) = true := by
  induction sigs with
  | nil => intro k; simp [drainedFrom]
  | cons s rest ih =>
    intro k
    rw [List.flatMap_cons]
    simp only [drainedSend, List.cons_append, List.nil_append, drainedFrom, beq_self_eq_true,
      Bool.true_and]
    exact ih (k + 1)

theorem canonical_schedule_is_drained (sigs : List String) :
    eachSendDrained (sigs.flatMap drainedSend) = true ∧
      sendCount (sigs.flatMap drainedSend) = sigs.length := by
  refine ⟨drainedFrom_drainedSends sigs 0, ?_⟩
  induction sigs with
  | nil => rfl
  | cons s rest ih =>
    have ih' : List.countP isSend (rest.flatMap drainedSend) = rest.length := ih
    rw [List.flatMap_cons, sendCount, List.countP_append, ih', List.length_cons]
    simp [drainedSend, isSend, List.countP_cons]
    omega

/-- C1 (as amended): on a freshly created and started Watcher, for every
interleaving `tr` of `n` Send calls with the steps of the loop, its ticker, Stop
and the consumer (shorter than 2^63 steps, so that the counter stays within the
range of `int`) in which, before each Send is issued and at the end, the
consumer has received and read one value for every earlier Send, the iterations
observed are exactly `1, 2, ..., n` in that order, and the counter ends at
`n`. -/
theorem drained_sends_are_observed_in_order (id : String) (tr : List Action) (st : State)
    (hlen : tr.length < 9223372036854775808) (hnoreset : ∀ a ∈ tr, isReset a = false)
    (hdrained : eachSendDrained tr = true) (hrun : run tr (started id) = .ok st) :
    observations st.log = (List.range' 1 (sendCount tr)).map (fun k : Nat => (k : Int)) ∧
    st.w.counter.Iteration = sendCount tr := by
  have hp : (started id).w.counter.Iteration + pendingSignals (started id) ≤ (0 : Nat) := by
    simp [started, State.init, New, Chan.make, pendingSignals]
  have hf : ((0 : Nat) : Int) + inFlight (started id) ≤ (started id).w.counter.Iteration := by
    simp [started, State.init, New, Chan.make, inFlight]
  have h := drained_run tr (started id) st 0 0 rfl (le_refl 0) (by omega) hp hf
    hdrained hnoreset (by push_cast; omega) hrun
  simpa using h

theorem drained_sends_are_observed_in_order_witness :
    drainedThrice.length < 9223372036854775808 ∧
    eachSendDrained drainedThrice = true ∧
    run drainedThrice (started "w")
      = .ok { atIteration "w" 3 [.observed 1, .observed 2, .observed 3] with tickerC := true } ∧
    observations [LogEntry.observed 1, .observed 2, .observed 3]
      = (List.range' 1 (sendCount drainedThrice)).map (fun k : Nat => (k : Int)) :=
  ⟨by decide, by decide, by decide,
    (drained_sends_are_observed_in_order "w" drainedThrice
      { atIteration "w" 3 [.observed 1, .observed 2, .observed 3] with tickerC := true }
      (by decide) (by decide) (by decide) (by decide)).1⟩

/-- C1 (as stated) fails: in the schedule `readAfterNextIncrement` each of the
two published values is received through Recv before the next Send is issued,
but what the consumer received is the pointer to the Watcher's counter, and it
reads the first one only after the loop has processed the second signal: the
iterations observed are 2, 2 and not 1, 2. -/
theorem received_pointer_read_late_observes_two_twice :
    receivedFrom 0 0 readAfterNextIncrement = true ∧
    sendCount readAfterNextIncrement = 2 ∧
    (run readAfterNextIncrement (started "w")).map (fun s => observations s.log)
      = .ok [2, 2] := by
  refine ⟨by decide, by decide, by decide⟩

/-! ## Teardown of the websocket handler -/

theorem deliveryLoop_events (inputs : List Delivery) :
    ∀ e ∈ (deliveryLoop inputs).1,
      e ≠ .connClose ∧ e ≠ .removeWatcher ∧ e ≠ .watcherStop ∧ e ≠ .cancel := by
  induction inputs with
  | nil => intro e he; cases he
  | cons d rest ih =>
    cases d with
    | ctxDone => intro e he; cases he
    | counter iteration value marshalOk write =>
      intro e he
      cases marshalOk with
      | false =>
        simp only [deliveryLoop, Bool.not_false, if_true, List.mem_singleton] at he
        subst he
        exact ⟨by decide, by decide, by decide, by decide⟩
      | true =>
        cases write with
        | ok =>
          simp only [deliveryLoop, Bool.not_true, Bool.false_eq_true, if_false,
            List.mem_cons] at he
          rcases he with he | he | he
          · subst he; exact ⟨nofun, nofun, nofun, nofun⟩
          · subst he; exact ⟨nofun, nofun, nofun, nofun⟩
          · exact ih e he
        | closeError =>
          simp only [deliveryLoop, Bool.not_true, Bool.false_eq_true, if_false,
            List.mem_singleton] at he
          subst he; exact ⟨nofun, nofun, nofun, nofun⟩
        | otherError =>
          simp only [deliveryLoop, Bool.not_true, Bool.false_eq_true, if_false,
            List.mem_cons, List.mem_singleton, List.not_mem_nil, or_false] at he
          rcases he with he | he
          · subst he; exact ⟨nofun, nofun, nofun, nofun⟩
          · subst he; exact ⟨nofun, nofun, nofun, nofun⟩

/-- C12 (as amended): on every exit path of `handlerWebSocket` after the
connection became active (origin on the allow-list, upgrade succeeded, the
delivery loop returned for whatever reason), teardown runs in this order: the
connection is closed, then the Watcher is unregistered, then the Watcher is
stopped; none of these three calls happens before or after that, so the Watcher
is never stopped before it is unregistered. -/
theorem teardown_closes_connection_then_unregisters_then_stops (origin : String)
    (inputs : List Delivery) (hvalid : isValidOrigin origin = true)
    (hret : (deliveryLoop inputs).2 = true) :
    ∃ body rest, handlerWebSocket origin true inputs
        = (body ++ [.connClose, .removeWatcher, .watcherStop] ++ rest, true) ∧
      HandlerEvent.upgraded ∈ body ∧
      HandlerEvent.connClose ∉ body ∧ HandlerEvent.removeWatcher ∉ body ∧
      HandlerEvent.watcherStop ∉ body ∧
      HandlerEvent.connClose ∉ rest ∧ HandlerEvent.removeWatcher ∉ rest ∧
      HandlerEvent.watcherStop ∉ rest := by
  refine ⟨[.watcherNew, .watcherStart, .addWatcher, .upgraded, .connSetup, .goHeartbeat,
    .goReadPump] ++ (deliveryLoop inputs).1, [.cancel], ?_, ?_, ?_, ?_, ?_,
    by decide, by decide, by decide⟩
  · simp [handlerWebSocket, hvalid, hret, returning]
  · simp
  · intro h
    rcases List.mem_append.mp h with h | h
    · revert h; decide
    · exact (deliveryLoop_events inputs _ h).1 rfl
  · intro h
    rcases List.mem_append.mp h with h | h
    · revert h; decide
    · exact (deliveryLoop_events inputs _ h).2.1 rfl
  · intro h
    rcases List.mem_append.mp h with h | h
    · revert h; decide
    · exact (deliveryLoop_events inputs _ h).2.2.1 rfl

theorem teardown_closes_connection_then_unregisters_then_stops_witness :
    isValidOrigin "https://localhost:8080" = true ∧
    (deliveryLoop [.counter 1 "x" true .ok, .counter 2 "y" true .otherError]).2 = true ∧
    ∃ body rest, handlerWebSocket "https://localhost:8080" true
          [.counter 1 "x" true .ok, .counter 2 "y" true .otherError]
        = (body ++ [.connClose, .removeWatcher, .watcherStop] ++ rest, true) ∧
      HandlerEvent.upgraded ∈ body ∧
      HandlerEvent.connClose ∉ body ∧ HandlerEvent.removeWatcher ∉ body ∧
      HandlerEvent.watcherStop ∉ body ∧
      HandlerEvent.connClose ∉ rest ∧ HandlerEvent.removeWatcher ∉ rest ∧
      HandlerEvent.watcherStop ∉ rest :=
  ⟨by decide, by decide,
    teardown_closes_connection_then_unregisters_then_stops "https://localhost:8080"
      [.counter 1 "x" true .ok, .counter 2 "y" true .otherError] (by decide) (by decide)⟩

/-- C12 (as stated) fails: for a request from an allowed origin whose upgrade
succeeds, with one counter delivered before the token is cancelled, the
handler's calls are exactly the listed ones: `conn.Close()` runs first of the
deferred calls, before the Watcher is unregistered and before it is stopped. -/
theorem connection_is_closed_before_watcher_teardown :
    handlerWebSocket "http://localhost:8080" true [.counter 1 "x" true .ok, .ctxDone]
      = ([.watcherNew, .watcherStart, .addWatcher, .upgraded, .connSetup, .goHeartbeat,
          .goReadPump, .writeMessage 1 "x", .incStats,
          .connClose, .removeWatcher, .watcherStop, .cancel], true) ∧
    happensBefore .connClose .removeWatcher
      (handlerWebSocket "http://localhost:8080" true [.counter 1 "x" true .ok, .ctxDone]).1
      = true ∧
    happensBefore .connClose .watcherStop
      (handlerWebSocket "http://localhost:8080" true [.counter 1 "x" true .ok, .ctxDone]).1
      = true ∧
    happensBefore .removeWatcher .connClose
      (handlerWebSocket "http://localhost:8080" true [.counter 1 "x" true .ok, .ctxDone]).1
      = false ∧
    happensBefore .watcherStop .connClose
      (handlerWebSocket "http://localhost:8080" true [.counter 1 "x" true .ok, .ctxDone]).1
      = false := by
  refine ⟨by decide, by decide, by decide, by decide, by decide⟩

/-! ## The heartbeat pump -/

theorem heartbeatPump_never_cancels (inputs : List Heartbeat) :
    HandlerEvent.cancel ∉ (heartbeatPump inputs).1 := by
  induction inputs with
  | nil => intro h; cases h
  | cons d rest ih =>
    cases d with
    | ctxDone => intro h; cases h
    | tick pingOk =>
      cases pingOk with
      | false =>
        intro h
        simp only [heartbeatPump, Bool.false_eq_true, if_false, List.mem_singleton] at h
        cases h
      | true =>
        intro h
        simp only [heartbeatPump, if_true, List.mem_cons] at h
        rcases h with h | h
        · cases h
        · exact ih h

/-- C13: when the heartbeat pump's ping cannot be written (here at the first
tick, and at the second after one successful ping), the goroutine returns after
that ping and `cancel` is not among its calls; the read pump, in contrast, calls
`cancel` when it returns on a read error. -/
theorem heartbeat_ping_failure_does_not_cancel :
    heartbeatPump [.tick false] = ([.ping], true) ∧
    (heartbeatPump [.tick false]).1.contains .cancel = false ∧
    heartbeatPump [.tick true, .tick false, .tick true] = ([.ping, .ping], true) ∧
    (heartbeatPump [.tick true, .tick false, .tick true]).1.contains .cancel = false ∧
    readPump [.readError] = ([.cancel], true) := by
  refine ⟨by decide, by decide, by decide, by decide, by decide⟩

end GoApp
